import Mathlib

/-!
Verification of the mohsin-blockchain node core (chain.rs, state.rs, mvm.rs,
standards.rs, address.rs) via a shallow embedding in Lean.

Modelling conventions:
* Rust `u64` values are `Nat`; arithmetic the source performs unchecked is
  wrapped explicitly with `wrap64` (reduction mod 2^64).  Subtractions in the
  source are always guarded by a balance check, so `Nat` subtraction agrees
  with the source on every reachable input.
* The RocksDB key/value store behind `State` (state.rs) is modelled as a
  record of total functions keyed by the same strings the source uses;
  a `get` of an absent key returns the source's documented default (0 for
  integer cells, `none` for records).
* Cryptographic and wall-clock inputs (Ed25519 verification, SHA-256,
  `Utc::now`) are abstracted as parameters collected in `Env`: `sigOk`
  stands for `Transaction::verify_signature`, `validAddr` for
  `Address::is_valid`, `hashB` for SHA-256+hex over a byte stream, and the
  fresh hex suffixes stand for the hash-derived parts of generated token and
  contract addresses.  No claim below depends on properties of these
  functions beyond determinism.
* `HashMap`/`BTreeMap` in the mempool are modelled as association lists;
  the `BTreeMap` nonce index is kept sorted by an ordered insert.  The only
  place `HashMap` iteration order could be observed, `Mempool::get_pending`,
  sorts its output by a total key before use.
-/

/-- Reduction mod 2^64: the effect of Rust `u64` wrap-around arithmetic. -/
def wrap64 (n : Nat) : Nat := n % 2 ^ 64

/-- Pointwise update of a total function, modelling a keyed `put`. -/
def upd {α β : Type} [DecidableEq α] (f : α → β) (k : α) (v : β) : α → β :=
  fun x => if x = k then v else f x

/-- Byte-wise lexicographic order on char lists (Rust `str` ordering;
for Unicode scalar values this agrees with UTF-8 byte order). -/
def charListLt : List Char → List Char → Bool
  | [], [] => false
  | [], _ :: _ => true
  | _ :: _, [] => false
  | a :: as, b :: bs => if a < b then true else if b < a then false else charListLt as bs

/-- Rust `String` ordering used by `sort_by` on senders. -/
def strLt (a b : String) : Bool := charListLt a.data b.data

/-- Rust `str::starts_with`. -/
def strStartsWith (s p : String) : Bool := p.data.isPrefixOf s.data

/-- Association-list lookup (model of `HashMap::get` / `BTreeMap::get`). -/
def alookup {β : Type} : List (String × β) → String → Option β
  | [], _ => none
  | (k, v) :: rest, x => if x = k then some v else alookup rest x

/-- Association-list lookup with Nat keys (`BTreeMap<u64, _>::get`). -/
def nlookup {β : Type} : List (Nat × β) → Nat → Option β
  | [], _ => none
  | (k, v) :: rest, x => if x = k then some v else nlookup rest x

-- ==================== mvm.rs: limits and schema types ====================

def MAX_VARIABLES : Nat := 10
def MAX_MAPPINGS : Nat := 5
def MAX_FUNCTIONS : Nat := 10
def MAX_OPS_PER_FUNCTION : Nat := 20
def MAX_STRING_LENGTH : Nat := 256
def MAX_NAME_LENGTH : Nat := 32

inductive VarType where
  | Uint64
  | Str
  | Bool
  | Address
deriving DecidableEq, Repr

structure VarDef where
  name : String
  varType : VarType
  default : Option String
deriving DecidableEq, Repr

structure MappingDef where
  name : String
  keyType : VarType
  valueType : VarType
deriving DecidableEq, Repr

structure FnArg where
  name : String
  argType : VarType
deriving DecidableEq, Repr

inductive FnModifier where
  | View
  | Write
  | Payable
  | OnlyOwner
deriving DecidableEq, Repr

/-- Scalar `serde_json::Value`s: the operands `Operation` fields carry and
the field values of every JSON object the MVM constructs.  `resolve_value`
inspects exactly strings, unsigned/signed integers and booleans and prints
anything else; compound operands (arrays/objects), which it would merely
print, are not represented. -/
inductive JScalar where
  | s (v : String)
  | n (v : Int)
  | b (v : Bool)
  | null
deriving DecidableEq, Repr

/-- The JSON values appearing in `CallResult::data`: scalars plus the
flat objects (`{key, value}`, `{new_owner}`, `{success}`) the MVM builds. -/
inductive JVal where
  | s (v : String)
  | n (v : Int)
  | b (v : Bool)
  | null
  | obj (fields : List (String × JScalar))
deriving DecidableEq, Repr

def JScalar.toJVal : JScalar → JVal
  | .s v => .s v
  | .n v => .n v
  | .b v => .b v
  | .null => .null

structure Operation where
  op : String
  var : Option String
  value : Option JScalar
  map : Option String
  key : Option JScalar
  left : Option JScalar
  right : Option JScalar
  cmp : Option String
  msg : Option String
  toAddr : Option JScalar
  amount : Option JScalar
deriving DecidableEq, Repr

structure FnDef where
  name : String
  modifiers : List FnModifier
  args : List FnArg
  body : List Operation
  returns : Option VarType
deriving DecidableEq, Repr

structure MoshContract where
  address : String
  name : String
  creator : String
  owner : String
  createdAt : Int
  token : Option String
  vars : List VarDef
  mappings : List MappingDef
  functions : List FnDef
deriving DecidableEq, Repr

structure ExecContext where
  caller : String
  amount : Nat
  blockHeight : Nat
  blockTimestamp : Nat
  args : List (String × String)
  locals : List (String × String)
deriving DecidableEq, Repr

structure CallResult where
  success : Bool
  data : Option JVal
  error : Option String
  gasUsed : Nat
deriving DecidableEq, Repr

def CallResult.ok (data : JVal) (gas : Nat) : CallResult :=
  ⟨true, some data, none, gas⟩

def CallResult.err (msg : String) (gas : Nat) : CallResult :=
  ⟨false, none, some msg, gas⟩

-- ==================== standards.rs: MVM-20 token record ====================

structure MVM20Token where
  address : String
  name : String
  symbol : String
  decimals : Nat
  totalSupply : Nat
  creator : String
  createdAt : Int
deriving DecidableEq, Repr

-- ==================== chain.rs: transactions and blocks ====================

inductive TxType where
  | Transfer
  | Deploy
  | Call
  | CreateToken
  | TransferToken
  | DeployContract
  | CallContract
deriving DecidableEq, Repr

inductive TxData where
  | Deploy (code : List Nat) (name : String)
  | Call (contract : String) (method : String) (args : List String)
  | CreateToken (name : String) (symbol : String) (totalSupply : Nat)
  | TransferToken (contract : String) (toAddr : String) (amount : Nat)
  | DeployContract (name : String) (token : Option String)
      (vars : List VarDef) (mappings : List MappingDef) (functions : List FnDef)
  | CallContract (contract : String) (method : String) (args : List String)
      (amount : Option Nat)
deriving DecidableEq, Repr

inductive TxStatus where
  | Pending
  | Success
  | Failed
deriving DecidableEq, Repr

structure Tx where
  hash : String
  txType : TxType
  fromAddr : String
  toAddr : Option String
  value : Nat
  gasPrice : Nat
  gasLimit : Nat
  gasUsed : Nat
  nonce : Nat
  data : Option TxData
  timestamp : Int
  signature : String
  publicKey : String
  status : TxStatus
  error : Option String
deriving DecidableEq, Repr

inductive TxError where
  | InvalidSignature (message : String)
  | InvalidNonce (expected got : Nat)
  | InsufficientBalance (required available : Nat)
  | InvalidAddress (address : String)
  | InvalidRecipient (message : String)
  | TokenNotFound (contract : String)
  | InsufficientTokenBalance (required available : Nat)
  | ContractError (message : String)
  | InvalidTxType (txType : String)
  | GasExceeded (limit used : Nat)
  | InternalError (message : String)
deriving DecidableEq, Repr

/-- `impl Display for TxError` in chain.rs. -/
def TxError.toMessage : TxError → String
  | .InvalidSignature m => "Invalid signature: " ++ m
  | .InvalidNonce e g => "Invalid nonce: expected " ++ toString e ++ ", got " ++ toString g
  | .InsufficientBalance r a => "Insufficient balance: need " ++ toString r ++ ", have " ++ toString a
  | .InvalidAddress a => "Invalid address: " ++ a
  | .InvalidRecipient m => "Invalid recipient: " ++ m
  | .TokenNotFound c => "Token not found: " ++ c
  | .InsufficientTokenBalance r a => "Insufficient token balance: need " ++ toString r ++ ", have " ++ toString a
  | .ContractError m => "Contract error: " ++ m
  | .InvalidTxType t => "Invalid transaction type: " ++ t
  | .GasExceeded l u => "Gas exceeded: limit " ++ toString l ++ ", used " ++ toString u
  | .InternalError m => "Internal error: " ++ m

structure ServiceReward where
  rank : Nat
  nodeId : String
  address : String
  browsers : Nat
  amount : Nat
deriving DecidableEq, Repr

structure BlockRewards where
  validatorReward : Nat
  serviceRewards : List ServiceReward
  totalMinted : Nat
deriving DecidableEq, Repr

structure Block where
  height : Nat
  hash : String
  prevHash : String
  timestamp : Int
  validator : String
  transactions : List Tx
  txCount : Nat
  gasUsed : Nat
  gasLimit : Nat
  rewards : BlockRewards
  signature : String
deriving DecidableEq, Repr

-- Byte-level encoding used by Block::calculate_hash (sha2 update sequence).

/-- `u64::to_le_bytes`. -/
def u64le (n : Nat) : List Nat :=
  (List.range 8).map fun i => n / 256 ^ i % 256

/-- `i64::to_le_bytes` (two's complement, little endian). -/
def i64le (t : Int) : List Nat := u64le (t % 2 ^ 64).toNat

/-- UTF-8 bytes of a string, as fed to the hasher. -/
def strBytes (s : String) : List Nat := s.toUTF8.data.toList.map fun b => b.toNat

/-- `Block::calculate_hash`: SHA-256 (abstracted as `H`) over
height LE-bytes ‖ prev_hash ‖ timestamp LE-bytes ‖ validator ‖ tx hashes. -/
def Block.calculateHash (H : List Nat → String) (b : Block) : String :=
  H (u64le b.height ++ strBytes b.prevHash ++ i64le b.timestamp ++
     strBytes b.validator ++ (b.transactions.map fun t => strBytes t.hash).flatten)

/-- `Block::genesis` (timestamp passed in for `Utc::now().timestamp()`). -/
def Block.genesis (H : List Nat → String) (timestamp : Int)
    (masterAddress : String) (masterBalance : Nat) : Block :=
  let b : Block :=
    { height := 0
      hash := ""
      prevHash := String.mk (List.replicate 64 '0')
      timestamp := timestamp
      validator := masterAddress
      transactions := []
      txCount := 0
      gasUsed := 0
      gasLimit := 1000000
      rewards := { validatorReward := masterBalance, serviceRewards := [], totalMinted := masterBalance }
      signature := "" }
  { b with hash := Block.calculateHash H b }

/-- `Block::new` (timestamp passed in for `Utc::now().timestamp()`). -/
def Block.new (H : List Nat → String) (height : Nat) (prevHash : String)
    (timestamp : Int) (validator : String) (transactions : List Tx)
    (rewards : BlockRewards) (gasLimit : Nat) : Block :=
  let b : Block :=
    { height := height
      hash := ""
      prevHash := prevHash
      timestamp := timestamp
      validator := validator
      transactions := transactions
      txCount := transactions.length
      gasUsed := wrap64 (transactions.map fun t => t.gasUsed).sum
      gasLimit := gasLimit
      rewards := rewards
      signature := "" }
  { b with hash := Block.calculateHash H b }

-- ==================== state.rs: the persistent state facade ====================

/-- The RocksDB-backed `State`, one field per key namespace the claims touch.
`tx_by_block`, `token_list`, `mosh_by_creator`, faucet and event namespaces
are write-only for the code under verification and are omitted. -/
structure State where
  balances : String → Nat
  nonces : String → Nat
  height : Nat
  totalSupply : Nat
  tokens : String → Option MVM20Token
  tokenBalances : String → String → Nat
  moshContracts : String → Option MoshContract
  moshVars : String → String → Option String
  moshMaps : String → String → String → Option String
  blocks : Nat → Option Block
  blockHashIdx : String → Option Nat
  txStore : String → Option Tx

/-- A freshly created database: every `get` sees its default. -/
def State.init : State :=
  { balances := fun _ => 0
    nonces := fun _ => 0
    height := 0
    totalSupply := 0
    tokens := fun _ => none
    tokenBalances := fun _ _ => 0
    moshContracts := fun _ => none
    moshVars := fun _ _ => none
    moshMaps := fun _ _ _ => none
    blocks := fun _ => none
    blockHashIdx := fun _ => none
    txStore := fun _ => none }

def State.setBalance (st : State) (a : String) (v : Nat) : State :=
  { st with balances := upd st.balances a v }

def State.setNonce (st : State) (a : String) (v : Nat) : State :=
  { st with nonces := upd st.nonces a v }

/-- `State::increment_nonce` (`current + 1` on a `u64`). -/
def State.incrementNonce (st : State) (a : String) : State :=
  st.setNonce a (wrap64 (st.nonces a + 1))

def State.setHeight (st : State) (h : Nat) : State :=
  { st with height := h }

def State.setTotalSupply (st : State) (v : Nat) : State :=
  { st with totalSupply := v }

def State.saveToken (st : State) (t : MVM20Token) : State :=
  { st with tokens := upd st.tokens t.address (some t) }

def State.setTokenBalance (st : State) (contract a : String) (v : Nat) : State :=
  { st with tokenBalances := upd st.tokenBalances contract (upd (st.tokenBalances contract) a v) }

def State.saveMoshContract (st : State) (c : MoshContract) : State :=
  { st with moshContracts := upd st.moshContracts c.address (some c) }

def State.setMoshVar (st : State) (contract var v : String) : State :=
  { st with moshVars := upd st.moshVars contract (upd (st.moshVars contract) var (some v)) }

def State.setMoshMap (st : State) (contract map key v : String) : State :=
  let m := upd st.moshMaps contract (upd (st.moshMaps contract) map (upd (st.moshMaps contract map) key (some v)))
  { st with moshMaps := m }

/-- `State::save_block`: writes `block:<h>`, `block_hash:<hash>` and each
`tx:<hash>` record. -/
def State.saveBlock (st : State) (b : Block) : State :=
  let st1 := { st with
    blocks := fun h => if h = b.height then some b else st.blocks h
    blockHashIdx := upd st.blockHashIdx b.hash (some b.height) }
  b.transactions.foldl (fun s t => { s with txStore := upd s.txStore t.hash (some t) }) st1

-- ==================== small string helpers (Rust std semantics) ====================

/-- Rust `str::len` (UTF-8 byte count). -/
def utf8Len (s : String) : Nat := (s.data.map Char.utf8Size).sum

/-- Rust slicing `s[4..]` for a string with an ASCII 4-byte prefix. -/
def strDrop (s : String) (n : Nat) : String := String.mk (s.data.drop n)

/-- Rust `str::contains(char)`. -/
def strContains (s : String) (c : Char) : Bool := s.data.contains c

/-- Rust `str::ends_with(char)`. -/
def strEndsWith (s : String) (c : Char) : Bool := s.data.getLast? = some c

/-- Rust `str::trim_end_matches(']')`: strip every trailing `]`. -/
def trimEndRB (s : String) : String :=
  String.mk ((s.data.reverse.dropWhile fun c => c = ']').reverse)

/-- Rust `str::split(char)` collected into a vector. -/
def splitCharAux (c : Char) : List Char → List Char → List (List Char)
  | [], acc => [acc.reverse]
  | x :: xs, acc =>
    if x = c then acc.reverse :: splitCharAux c xs [] else splitCharAux c xs (x :: acc)

/-- Rust `str::parse::<u64>().unwrap_or(0)`: optional `+` sign, decimal
digits, error (hence 0) on anything else or on overflow past 2^64-1. -/
def parseU64 (s : String) : Nat :=
  let core := match s.data with
    | '+' :: rest => rest
    | l => l
  if core ≠ [] ∧ core.all Char.isDigit then
    let v := core.foldl (fun acc c => acc * 10 + (c.toNat - 48)) 0
    if v < 2 ^ 64 then v else 0
  else 0

-- ==================== standards.rs: MVM-20 operations ====================

/-- `create_mvm20_token`.  `addrHex` stands for
`hex(sha256(creator ‖ name ‖ timestamp)[..10])` and `createdAt` for
`Utc::now().timestamp()`. -/
def createMvm20Token (addrHex : String) (createdAt : Int) (st : State)
    (creator name symbol : String) (totalSupply : Nat) : String × State :=
  let contractAddress := "mvm1token" ++ addrHex
  let token : MVM20Token :=
    { address := contractAddress
      name := name
      symbol := symbol
      decimals := 8
      totalSupply := wrap64 (totalSupply * 100000000)
      creator := creator
      createdAt := createdAt }
  let st1 := st.saveToken token
  let st2 := st1.setTokenBalance contractAddress creator token.totalSupply
  (contractAddress, st2)

/-- `transfer_mvm20`.  Note both balances are read before either write. -/
def transferMvm20 (st : State) (contract fromA toA : String) (amount : Nat) :
    Except String State :=
  let fromBalance := st.tokenBalances contract fromA
  let toBalance := st.tokenBalances contract toA
  if fromBalance < amount then .error "Insufficient token balance"
  else
    let st1 := st.setTokenBalance contract fromA (fromBalance - amount)
    let st2 := st1.setTokenBalance contract toA (wrap64 (toBalance + amount))
    .ok st2

-- ==================== mvm.rs: the MVM engine ====================

def VarType.zeroValue : VarType → String
  | .Uint64 => "0"
  | .Str => ""
  | .Bool => "false"
  | .Address => ""

/-- `MVM::typed_value`. -/
def MVM.typedValue (val : String) (t : VarType) : JScalar :=
  match t with
  | .Uint64 => .n (parseU64 val)
  | .Bool => .b (val = "true")
  | .Str => .s val
  | .Address => .s val

/-- The non-mapping part of `MVM::resolve_value` on a string operand:
special tokens, then function arguments, then locals, then contract
variables, then the literal itself.  This is exactly what the source's
recursive call computes for a mapping key, because a key expression taken
from a two-way split on `[` contains no `[` and so can never hit the
mapping branch again. -/
def MVM.resolveSimple (st : State) (contract : MoshContract) (ctx : ExecContext)
    (s : String) : String :=
  if s = "msg.sender" then ctx.caller
  else if s = "msg.amount" then toString ctx.amount
  else if s = "block.height" then toString ctx.blockHeight
  else if s = "block.timestamp" then toString ctx.blockTimestamp
  else if s = "contract.owner" then contract.owner
  else if s = "contract.address" then contract.address
  else match alookup ctx.args s with
  | some v => v
  | none => match alookup ctx.locals s with
    | some v => v
    | none =>
      if contract.vars.any fun v => v.name = s then
        (st.moshVars contract.address s).getD ""
      else s

/-- `MVM::resolve_value`. -/
def MVM.resolveValue (st : State) (contract : MoshContract) (ctx : ExecContext) :
    Option JScalar → String
  | none => "0"
  | some (.n v) => toString v
  | some (.b v) => toString v
  | some .null => "null"
  | some (.s s) =>
    if s = "msg.sender" then ctx.caller
    else if s = "msg.amount" then toString ctx.amount
    else if s = "block.height" then toString ctx.blockHeight
    else if s = "block.timestamp" then toString ctx.blockTimestamp
    else if s = "contract.owner" then contract.owner
    else if s = "contract.address" then contract.address
    else match alookup ctx.args s with
    | some v => v
    | none => match alookup ctx.locals s with
      | some v => v
      | none =>
        if contract.vars.any fun v => v.name = s then
          (st.moshVars contract.address s).getD ""
        else if strContains s '[' ∧ strEndsWith s ']' then
          match splitCharAux '[' (trimEndRB s).data [] with
          | [p0, p1] =>
            let key := MVM.resolveSimple st contract ctx (String.mk p1)
            (st.moshMaps contract.address (String.mk p0) key).getD ""
          | _ => s
        else s

/-- The operation loop of `MVM::call` for a user-defined function body.
Threads the state, the context (for `let`), the gas counter and the last
`return` value; an early `return Ok(CallResult::err ...)` in the source
becomes an immediate result here. -/
def MVM.runOps (contract : MoshContract) (contractAddr : String) :
    List Operation → State → ExecContext → Nat → Option String → State × CallResult
  | [], st, _, gas, retVal =>
    (st, CallResult.ok ((retVal.map JVal.s).getD (.obj [("success", .b true)])) gas)
  | op :: rest, st, ctx, gas, retVal =>
    let gas := gas + 1000
    if op.op = "set" then
      let var := op.var.getD ""
      let value := MVM.resolveValue st contract ctx op.value
      MVM.runOps contract contractAddr rest (st.setMoshVar contractAddr var value) ctx gas retVal
    else if op.op = "add" then
      let var := op.var.getD ""
      let addVal := MVM.resolveValue st contract ctx op.value
      let current := (st.moshVars contractAddr var).getD "0"
      let newVal := wrap64 (parseU64 current + parseU64 addVal)
      MVM.runOps contract contractAddr rest (st.setMoshVar contractAddr var (toString newVal)) ctx gas retVal
    else if op.op = "sub" then
      let var := op.var.getD ""
      let subVal := MVM.resolveValue st contract ctx op.value
      let current := (st.moshVars contractAddr var).getD "0"
      let newVal := parseU64 current - parseU64 subVal
      MVM.runOps contract contractAddr rest (st.setMoshVar contractAddr var (toString newVal)) ctx gas retVal
    else if op.op = "map_set" then
      let map := op.map.getD ""
      let key := MVM.resolveValue st contract ctx op.key
      let value := MVM.resolveValue st contract ctx op.value
      MVM.runOps contract contractAddr rest (st.setMoshMap contractAddr map key value) ctx gas retVal
    else if op.op = "map_add" then
      let map := op.map.getD ""
      let key := MVM.resolveValue st contract ctx op.key
      let addVal := MVM.resolveValue st contract ctx op.value
      let current := (st.moshMaps contractAddr map key).getD "0"
      let newVal := wrap64 (parseU64 current + parseU64 addVal)
      MVM.runOps contract contractAddr rest (st.setMoshMap contractAddr map key (toString newVal)) ctx gas retVal
    else if op.op = "map_sub" then
      let map := op.map.getD ""
      let key := MVM.resolveValue st contract ctx op.key
      let subVal := MVM.resolveValue st contract ctx op.value
      let current := (st.moshMaps contractAddr map key).getD "0"
      let newVal := parseU64 current - parseU64 subVal
      MVM.runOps contract contractAddr rest (st.setMoshMap contractAddr map key (toString newVal)) ctx gas retVal
    else if op.op = "require" then
      let left := MVM.resolveValue st contract ctx op.left
      let cmp := op.cmp.getD ">"
      let right := MVM.resolveValue st contract ctx op.right
      let msg := op.msg.getD "Require failed"
      let leftNum := parseU64 left
      let rightNum := parseU64 right
      let pass :=
        if cmp = ">" then decide (leftNum > rightNum)
        else if cmp = ">=" then decide (leftNum ≥ rightNum)
        else if cmp = "<" then decide (leftNum < rightNum)
        else if cmp = "<=" then decide (leftNum ≤ rightNum)
        else if cmp = "==" ∨ cmp = "=" then decide (left = right)
        else if cmp = "!=" then decide (left ≠ right)
        else false
      if pass = false then (st, CallResult.err msg gas)
      else MVM.runOps contract contractAddr rest st ctx gas retVal
    else if op.op = "transfer" then
      match contract.token with
      | none => (st, CallResult.err "No token" gas)
      | some tokenAddr =>
        let toA := MVM.resolveValue st contract ctx op.toAddr
        let amt := MVM.resolveValue st contract ctx op.amount
        let amtNum := parseU64 amt
        let contractBal := st.tokenBalances tokenAddr contractAddr
        if contractBal < amtNum then (st, CallResult.err "Contract balance low" gas)
        else
          let st1 := st.setTokenBalance tokenAddr contractAddr (contractBal - amtNum)
          let toBal := st1.tokenBalances tokenAddr toA
          let st2 := st1.setTokenBalance tokenAddr toA (wrap64 (toBal + amtNum))
          MVM.runOps contract contractAddr rest st2 ctx gas retVal
    else if op.op = "return" then
      let val := MVM.resolveValue st contract ctx op.value
      MVM.runOps contract contractAddr rest st ctx gas (some val)
    else if op.op = "let" then
      let var := op.var.getD ""
      let value := MVM.resolveValue st contract ctx op.value
      MVM.runOps contract contractAddr rest st { ctx with locals := (var, value) :: ctx.locals } gas retVal
    else
      (st, CallResult.err ("Unknown op: " ++ op.op) gas)

/-- `MVM::call`.  `nowNat` stands for `Utc::now().timestamp() as u64`.
The returned state carries every write the call performed before its
outcome was decided, exactly as the source's `&mut State` does. -/
def MVM.call (nowNat : Nat) (st : State) (caller contractAddr fnName : String)
    (args : List String) (amount : Nat) : Except String CallResult × State :=
  match st.moshContracts contractAddr with
  | none => (.error "Contract not found", st)
  | some contract =>
    let gas : Nat := 5000
    if strStartsWith fnName "get_" then
      let varName := strDrop fnName 4
      let gas := gas + 1000
      if varName = "owner" then (.ok (CallResult.ok (.s contract.owner) gas), st)
      else if varName = "creator" then (.ok (CallResult.ok (.s contract.creator) gas), st)
      else if varName = "token" then
        (.ok (CallResult.ok ((contract.token.map JVal.s).getD .null) gas), st)
      else if varName = "address" then (.ok (CallResult.ok (.s contract.address) gas), st)
      else match contract.vars.find? fun x => x.name = varName with
      | some v =>
        let val := (st.moshVars contractAddr varName).getD ""
        (.ok (CallResult.ok (MVM.typedValue val v.varType).toJVal gas), st)
      | none => match contract.mappings.find? fun x => x.name = varName with
        | some m =>
          match args with
          | [] => (.ok (CallResult.err "Missing key" gas), st)
          | a0 :: _ =>
            let val := (st.moshMaps contractAddr varName a0).getD ""
            (.ok (CallResult.ok (.obj [("key", .s a0), ("value", MVM.typedValue val m.valueType)]) gas), st)
        | none => (.ok (CallResult.err ("Unknown: " ++ varName) gas), st)
    else if strStartsWith fnName "set_" then
      let varName := strDrop fnName 4
      let gas := gas + 5000
      if caller ≠ contract.owner then (.ok (CallResult.err "Only owner" gas), st)
      else if varName = "owner" then
        match args with
        | [] => (.ok (CallResult.err "Missing address" gas), st)
        | a0 :: _ =>
          let updated := { contract with owner := a0 }
          (.ok (CallResult.ok (.obj [("new_owner", .s a0)]) gas), st.saveMoshContract updated)
      else match contract.vars.find? fun x => x.name = varName with
      | some v =>
        match args with
        | [] => (.ok (CallResult.err "Missing value" gas), st)
        | a0 :: _ =>
          (.ok (CallResult.ok (MVM.typedValue a0 v.varType).toJVal gas), st.setMoshVar contractAddr varName a0)
      | none =>
        if contract.mappings.any fun x => x.name = varName then
          match args with
          | a0 :: a1 :: _ =>
            (.ok (CallResult.ok (.obj [("key", .s a0), ("value", .s a1)]) gas), st.setMoshMap contractAddr varName a0 a1)
          | _ => (.ok (CallResult.err "Need: key, value" gas), st)
        else (.ok (CallResult.err ("Unknown: " ++ varName) gas), st)
    else
      match contract.functions.find? fun f => f.name = fnName with
      | none => (.ok (CallResult.err ("Function not found: " ++ fnName) gas), st)
      | some func =>
        let gas := gas + 10000
        if func.modifiers.contains .OnlyOwner ∧ caller ≠ contract.owner then
          (.ok (CallResult.err "Only owner" gas), st)
        else if func.modifiers.contains .Payable ∧ contract.token = none then
          (.ok (CallResult.err "No token linked" gas), st)
        else if func.modifiers.contains .Payable = false ∧ amount > 0 then
          (.ok (CallResult.err "Function not payable" gas), st)
        else
          let ctx : ExecContext :=
            { caller := caller
              amount := amount
              blockHeight := st.height
              blockTimestamp := nowNat
              args := func.args.enum.foldl (fun acc p => (p.2.name, (args.get? p.1).getD "") :: acc) []
              locals := [] }
          if func.modifiers.contains .Payable ∧ amount > 0 then
            match contract.token with
            | none =>
              let pr := MVM.runOps contract contractAddr func.body st ctx gas none
              (.ok pr.2, pr.1)
            | some tokenAddr =>
              let callerBal := st.tokenBalances tokenAddr caller
              if callerBal < amount then
                (.ok (CallResult.err ("Insufficient: " ++ toString callerBal ++ " < " ++ toString amount) gas), st)
              else
                let st1 := st.setTokenBalance tokenAddr caller (callerBal - amount)
                let contractBal := st1.tokenBalances tokenAddr contractAddr
                let st2 := st1.setTokenBalance tokenAddr contractAddr (wrap64 (contractBal + amount))
                let pr := MVM.runOps contract contractAddr func.body st2 ctx gas none
                (.ok pr.2, pr.1)
          else
            let pr := MVM.runOps contract contractAddr func.body st ctx gas none
            (.ok pr.2, pr.1)

-- `MVM::deploy` and its validation passes.

/-- The reserved-set and duplicate check `MVM::deploy` runs over the
variable definitions, accumulating seen names (the source's `HashSet`). -/
def deployCheckVars : List VarDef → List String → Except String (List String)
  | [], names => .ok names
  | v :: rest, names =>
    if v.name ∈ ["owner", "creator", "token", "address", "balance"] then
      .error ("Reserved: " ++ v.name)
    else if v.name ∈ names then .error ("Duplicate: " ++ v.name)
    else deployCheckVars rest (v.name :: names)

/-- The duplicate check over mapping definitions (no reserved-set check). -/
def deployCheckMaps : List MappingDef → List String → Except String (List String)
  | [], names => .ok names
  | m :: rest, names =>
    if m.name ∈ names then .error ("Duplicate: " ++ m.name)
    else deployCheckMaps rest (m.name :: names)

/-- The per-function operation-count check. -/
def deployCheckFns : List FnDef → Except String Unit
  | [] => .ok ()
  | f :: rest =>
    if f.body.length > MAX_OPS_PER_FUNCTION then
      .error ("Function " ++ f.name ++ " has too many ops (max " ++ toString MAX_OPS_PER_FUNCTION ++ ")")
    else deployCheckFns rest

/-- The write phase of `MVM::deploy`: persist the record, then each
variable's default (declared default or the type's zero value). -/
def MVM.deployCommit (addrHex : String) (createdAt : Int) (st : State)
    (creator name : String) (token : Option String) (vars : List VarDef)
    (mappings : List MappingDef) (functions : List FnDef) :
    Except String String × State :=
  let address := "mvm1contract" ++ addrHex
  let contract : MoshContract :=
    { address := address
      name := name
      creator := creator
      owner := creator
      createdAt := createdAt
      token := token
      vars := vars
      mappings := mappings
      functions := functions }
  let st1 := st.saveMoshContract contract
  let st2 := vars.foldl (fun s v => s.setMoshVar address v.name (v.default.getD v.varType.zeroValue)) st1
  (.ok address, st2)

/-- `MVM::deploy`.  `addrHex` stands for
`hex(sha256(creator ‖ name ‖ nanos)[..10])`, `createdAt` for
`Utc::now().timestamp()`. -/
def MVM.deploy (addrHex : String) (createdAt : Int) (st : State)
    (creator name : String) (token : Option String) (vars : List VarDef)
    (mappings : List MappingDef) (functions : List FnDef) :
    Except String String × State :=
  if utf8Len name = 0 ∨ utf8Len name > MAX_NAME_LENGTH then
    (.error ("Name: 1-" ++ toString MAX_NAME_LENGTH ++ " chars"), st)
  else if vars.length > MAX_VARIABLES then
    (.error ("Max " ++ toString MAX_VARIABLES ++ " variables"), st)
  else if mappings.length > MAX_MAPPINGS then
    (.error ("Max " ++ toString MAX_MAPPINGS ++ " mappings"), st)
  else if functions.length > MAX_FUNCTIONS then
    (.error ("Max " ++ toString MAX_FUNCTIONS ++ " functions"), st)
  else match deployCheckVars vars [] with
  | .error e => (.error e, st)
  | .ok names => match deployCheckMaps mappings names with
    | .error e => (.error e, st)
    | .ok _ => match deployCheckFns functions with
      | .error e => (.error e, st)
      | .ok _ =>
        match token with
        | some t =>
          if (st.tokens t).isNone then (.error ("Token not found: " ++ t), st)
          else MVM.deployCommit addrHex createdAt st creator name token vars mappings functions
        | none => MVM.deployCommit addrHex createdAt st creator name token vars mappings functions

/-- `MVM::execute_call` (legacy `Call` path).  The state is threaded even
on a contract failure, matching the source's in-place mutation. -/
def MVM.executeCall (nowNat : Nat) (st : State) (contract method : String)
    (args : List String) : Except String (Option JVal) × State :=
  if strStartsWith contract "mvm1contract" then
    match MVM.call nowNat st "" contract method args 0 with
    | (.error e, st') => (.error e, st')
    | (.ok result, st') =>
      if result.success then (.ok result.data, st')
      else (.error (result.error.getD "Error"), st')
  else
    if method = "set" ∧ args ≠ [] then
      (.ok none, st.setMoshVar contract "value" (args.headD ""))
    else if method = "get" then
      (.ok ((st.moshVars contract "value").map JVal.s), st)
    else (.error ("Unknown: " ++ method), st)

-- ==================== chain.rs: mempool ====================

/-- `Mempool`: `by_hash` (a `HashMap`, here an association list in insertion
order), `by_sender` (a `HashMap` of `BTreeMap<u64, String>`, here an
association list of nonce-sorted association lists) and the counter. -/
structure Mempool where
  byHash : List (String × Tx)
  bySender : List (String × List (Nat × String))
  count : Nat
deriving DecidableEq, Repr

def Mempool.new : Mempool := ⟨[], [], 0⟩

/-- `BTreeMap::insert` on the nonce index (keeps the list key-sorted). -/
def insertNonceSorted (n : Nat) (h : String) : List (Nat × String) → List (Nat × String)
  | [] => [(n, h)]
  | (n', h') :: rest =>
    if n < n' then (n, h) :: (n', h') :: rest
    else if n = n' then (n, h) :: rest
    else (n', h') :: insertNonceSorted n h rest

/-- `by_sender.entry(sender).or_insert_with(BTreeMap::new).insert(nonce, hash)`. -/
def updSender : List (String × List (Nat × String)) → String → Nat → String →
    List (String × List (Nat × String))
  | [], sender, n, h => [(sender, [(n, h)])]
  | (s, m) :: rest, sender, n, h =>
    if sender = s then (s, insertNonceSorted n h m) :: rest
    else (s, m) :: updSender rest sender n h

/-- `BTreeMap::remove` on the nonce index. -/
def removeNonce (n : Nat) : List (Nat × String) → List (Nat × String)
  | [] => []
  | (n', h') :: rest => if n' = n then rest else (n', h') :: removeNonce n rest

/-- The `by_sender` cleanup in `Mempool::remove`: delete the nonce entry and
drop the sender when its index becomes empty. -/
def bySenderRemove : List (String × List (Nat × String)) → String → Nat →
    List (String × List (Nat × String))
  | [], _, _ => []
  | (s, m) :: rest, sender, n =>
    if sender = s then
      let m' := removeNonce n m
      if m' = [] then rest else (s, m') :: rest
    else (s, m) :: bySenderRemove rest sender n

/-- `HashMap::remove` on `by_hash`. -/
def removeHashEntry (h : String) : List (String × Tx) → List (String × Tx)
  | [] => []
  | (k, t) :: rest => if k = h then rest else (k, t) :: removeHashEntry h rest

/-- `Mempool::add`: `Ok(false)` on duplicate hash, error on a pending
(sender, nonce) pair, otherwise insert into both indices and count. -/
def Mempool.add (m : Mempool) (tx : Tx) : Except String Bool × Mempool :=
  let hash := tx.hash
  let sender := tx.fromAddr
  let nonce := tx.nonce
  if (alookup m.byHash hash).isSome then (.ok false, m)
  else if (match alookup m.bySender sender with
           | some senderTxs => (nlookup senderTxs nonce).isSome
           | none => false) then
    (.error ("Transaction with nonce " ++ toString nonce ++ " already pending for " ++ sender), m)
  else
    (.ok true,
      { byHash := (hash, tx) :: m.byHash
        bySender := updSender m.bySender sender nonce hash
        count := m.count + 1 })

/-- `Mempool::remove`. -/
def Mempool.remove (m : Mempool) (h : String) : Option Tx × Mempool :=
  match alookup m.byHash h with
  | none => (none, m)
  | some tx =>
    (some tx,
      { byHash := removeHashEntry h m.byHash
        bySender := bySenderRemove m.bySender tx.fromAddr tx.nonce
        count := m.count - 1 })

/-- The (sender ascending, nonce ascending) comparison `get_pending` sorts by. -/
def txKeyLe (a b : Tx) : Bool :=
  strLt a.fromAddr b.fromAddr || (a.fromAddr == b.fromAddr && decide (a.nonce ≤ b.nonce))

/-- `Mempool::get_pending`: collect every pending transaction, sort by
(sender, nonce), truncate.  Rust's `sort_by` is a stable sort; so is the
insertion sort used here, and the sort key is injective on any mempool
whose (sender, nonce) pairs are distinct. -/
def Mempool.getPending (m : Mempool) (max : Nat) : List Tx :=
  let result := m.byHash.map Prod.snd
  (List.insertionSort (fun a b => txKeyLe a b = true) result).take max

/-- `Mempool::drain_for_block`. -/
def Mempool.drainForBlock (m : Mempool) (max : Nat) : List Tx × Mempool :=
  let txs := m.getPending max
  (txs, txs.foldl (fun mm t => (mm.remove t.hash).2) m)

-- ==================== chain.rs: the blockchain engine ====================

/-- The deterministic stand-ins for the engine's environment: signature
verification, bech32 address validity, SHA-256 block hashing, wall-clock
readings and the hash-derived fresh-address suffixes. -/
structure Env where
  sigOk : Tx → Bool
  validAddr : String → Bool
  hashB : List Nat → String
  nowTs : Int
  nowNat : Nat
  masterAddr : String
  tokenAddrHex : String
  contractAddrHex : String

/-- The configuration fields the engine reads. -/
structure Config where
  masterBalance : Nat
  blockReward : Nat
  validatorPercent : Nat
  gasLimit : Nat
  maxTxsPerBlock : Nat

/-- The fixed base gas by transaction type (`execute_transaction`). -/
def baseGas : TxType → Nat
  | .Transfer => 21000
  | .Deploy => 200000
  | .Call => 50000
  | .CreateToken => 100000
  | .TransferToken => 65000
  | .DeployContract => 150000
  | .CallContract => 50000

/-- `Blockchain::execute_transaction`.  Returns the state (kept even when
the transaction fails after partial writes, exactly as the source's
`&mut`-threaded state), the transaction with its mutated fields
(`gas_used`, `to`), and the error if any.  The balance is read once; the
source re-reads the same cell under the write lock and sees the same
value. -/
def executeTransaction (env : Env) (st : State) (tx : Tx) : State × Tx × Option TxError :=
  let tx := { tx with gasUsed := baseGas tx.txType }
  if env.sigOk tx = false then
    (st, tx, some (.InvalidSignature "Signature does not match sender address"))
  else
    let expectedNonce := st.nonces tx.fromAddr
    if tx.nonce ≠ expectedNonce then (st, tx, some (.InvalidNonce expectedNonce tx.nonce))
    else
      let gasFee := wrap64 (tx.gasUsed * tx.gasPrice)
      let totalCost := match tx.txType with
        | .Transfer => wrap64 (tx.value + gasFee)
        | _ => gasFee
      let fromBalance := st.balances tx.fromAddr
      if fromBalance < totalCost then
        (st, tx, some (.InsufficientBalance totalCost fromBalance))
      else
        match tx.txType with
        | .Transfer =>
          match tx.toAddr with
          | none => (st, tx, some (.InvalidRecipient "Missing recipient address"))
          | some toA =>
            if env.validAddr toA = false then (st, tx, some (.InvalidAddress toA))
            else
              let toBalance := st.balances toA
              let st1 := st.setBalance tx.fromAddr (fromBalance - totalCost)
              let st2 := st1.setBalance toA (wrap64 (toBalance + tx.value))
              (st2.incrementNonce tx.fromAddr, tx, none)
        | .Deploy =>
          let st1 := st.setBalance tx.fromAddr (fromBalance - gasFee)
          (st1.incrementNonce tx.fromAddr, tx, none)
        | .Call =>
          match tx.data with
          | some (.Call contract method args) =>
            let st1 := st.setBalance tx.fromAddr (fromBalance - gasFee)
            match MVM.executeCall env.nowNat st1 contract method args with
            | (.error e, st2) => (st2, tx, some (.ContractError e))
            | (.ok _, st2) => (st2.incrementNonce tx.fromAddr, tx, none)
          | _ => (st, tx, none)
        | .CreateToken =>
          match tx.data with
          | some (.CreateToken name symbol totalSupply) =>
            let st1 := st.setBalance tx.fromAddr (fromBalance - gasFee)
            let p := createMvm20Token env.tokenAddrHex env.nowTs st1 tx.fromAddr name symbol totalSupply
            (p.2.incrementNonce tx.fromAddr, { tx with toAddr := some p.1 }, none)
          | _ => (st, tx, none)
        | .TransferToken =>
          match tx.data with
          | some (.TransferToken contract toA amount) =>
            let st1 := st.setBalance tx.fromAddr (fromBalance - gasFee)
            match st1.tokens contract with
            | none => (st1, tx, some (.TokenNotFound contract))
            | some _ =>
              let tokenBalance := st1.tokenBalances contract tx.fromAddr
              if tokenBalance < amount then
                (st1, tx, some (.InsufficientTokenBalance amount tokenBalance))
              else if env.validAddr toA = false then (st1, tx, some (.InvalidAddress toA))
              else match transferMvm20 st1 contract tx.fromAddr toA amount with
                | .error e => (st1, tx, some (.ContractError e))
                | .ok st2 => (st2.incrementNonce tx.fromAddr, tx, none)
          | _ => (st, tx, none)
        | .DeployContract =>
          match tx.data with
          | some (.DeployContract name token vars mappings functions) =>
            let st1 := st.setBalance tx.fromAddr (fromBalance - gasFee)
            match MVM.deploy env.contractAddrHex env.nowTs st1 tx.fromAddr name token vars mappings functions with
            | (.error e, st2) => (st2, tx, some (.ContractError e))
            | (.ok contractAddr, st2) =>
              (st2.incrementNonce tx.fromAddr, { tx with toAddr := some contractAddr }, none)
          | _ => (st, tx, none)
        | .CallContract =>
          match tx.data with
          | some (.CallContract contract method args amount) =>
            let st1 := st.setBalance tx.fromAddr (fromBalance - gasFee)
            match MVM.call env.nowNat st1 tx.fromAddr contract method args (amount.getD 0) with
            | (.error e, st2) => (st2, tx, some (.ContractError e))
            | (.ok result, st2) =>
              let tx := { tx with gasUsed := result.gasUsed }
              if result.success = false then
                (st2, tx, some (.ContractError (result.error.getD "Unknown error")))
              else
                (st2.incrementNonce tx.fromAddr, { tx with toAddr := some contract }, none)
          | _ => (st, tx, none)

/-- The execution loop in `produce_block`: run each drained transaction in
order and stamp its terminal status (`Success`, or `Failed` with the
error's display string). -/
def execList (env : Env) (st : State) : List Tx → State × List Tx
  | [] => (st, [])
  | tx :: rest =>
    let r := executeTransaction env st tx
    let txDone := match r.2.2 with
      | none => { r.2.1 with status := .Success }
      | some e => { r.2.1 with status := .Failed, error := some e.toMessage }
    let tail := execList env r.1 rest
    (tail.1, txDone :: tail.2)

/-- `Blockchain::produce_block`, applied to the transactions drained from
the mempool.  `index_transaction` writes only `tx_by_addr`/`tx_block`
index keys, which no modelled reader consumes, and is omitted. -/
def produceBlock (env : Env) (cfg : Config) (st : State) (txs : List Tx) : State × Block :=
  let currentHeight := st.height
  let prevHash := match st.blocks currentHeight with
    | some b => b.hash
    | none => ""
  let executed := execList env st txs
  let blockReward := wrap64 (cfg.blockReward * 100000000)
  let validatorReward := wrap64 (blockReward * cfg.validatorPercent) / 100
  let rewards : BlockRewards :=
    { validatorReward := validatorReward, serviceRewards := [], totalMinted := blockReward }
  let newHeight := currentHeight + 1
  let block := Block.new env.hashB newHeight prevHash env.nowTs env.masterAddr executed.2 rewards cfg.gasLimit
  let st2 := executed.1.saveBlock block
  let st3 := st2.setHeight newHeight
  let currentBalance := st3.balances env.masterAddr
  let st4 := st3.setBalance env.masterAddr (wrap64 (currentBalance + validatorReward))
  let st5 := st4.setTotalSupply (wrap64 (st4.totalSupply + blockReward))
  (st5, block)

/-- The genesis path of `Blockchain::new` on a fresh database: build the
genesis block, save it, set the master balance, set height 0.  Note that
`meta:total_supply` is not written. -/
def genesisInit (env : Env) (cfg : Config) : State :=
  let masterBal := wrap64 (cfg.masterBalance * 100000000)
  let genesis := Block.genesis env.hashB env.nowTs env.masterAddr masterBal
  (((State.init).saveBlock genesis).setBalance env.masterAddr masterBal).setHeight 0

/-- A chain run: one `produce_block` per step, each step supplying that
tick's environment readings and the transactions drained from the mempool. -/
def runChain (cfg : Config) (st : State) (steps : List (Env × List Tx)) : State :=
  steps.foldl (fun s step => (produceBlock step.1 cfg s step.2).1) st

-- ==================== claim-support definitions ====================

/-- Whether a transaction's `data` payload matches its kind, i.e. whether
the kind-specific `if let` in `execute_transaction` fires.  `Transfer` and
`Deploy` have no such guard. -/
def effectiveData (tx : Tx) : Bool :=
  match tx.txType, tx.data with
  | .Transfer, _ => true
  | .Deploy, _ => true
  | .Call, some (.Call _ _ _) => true
  | .CreateToken, some (.CreateToken _ _ _) => true
  | .TransferToken, some (.TransferToken _ _ _) => true
  | .DeployContract, some (.DeployContract _ _ _ _ _) => true
  | .CallContract, some (.CallContract _ _ _ _) => true
  | _, _ => false

/-- The number of Success transactions from `a` (with kind-matching data)
in a transaction list. -/
def successCountFor (a : String) (txs : List Tx) : Nat :=
  (txs.filter fun t =>
    decide (t.status = TxStatus.Success) && effectiveData t && decide (t.fromAddr = a)).length

/-- The same count summed over the stored blocks `0 .. height`. -/
def chainSuccessCount (st : State) (a : String) : Nat :=
  ((List.range (st.height + 1)).map fun h =>
    match st.blocks h with
    | some b => successCountFor a b.transactions
    | none => 0).sum

/-- Timestamp-descending comparison (`b.timestamp.cmp(&a.timestamp)`). -/
def tsDesc (a b : Tx) : Bool := decide (b.timestamp ≤ a.timestamp)

/-- `State::get_transactions_by_address`: scan the `tx_by_addr:<addr>:`
prefix (whose RocksDB iteration order is ascending in the tx hash),
**taking only the first `limit` index entries**, load each `tx:<hash>`
record, then sort by timestamp descending.  `idx` is the hash list of the
prefix scan, `store` the `tx:` namespace. -/
def getTransactionsByAddress (store : String → Option Tx) (idx : List String)
    (limit : Nat) : List Tx :=
  let txs := (idx.take limit).filterMap store
  List.insertionSort (fun a b => tsDesc a b = true) txs

/-- What the specification text says `get_transactions_by_address` does:
load every indexed transaction, sort by timestamp descending, then
truncate to `limit` — i.e. the `limit` most recent. -/
def specGetTransactionsByAddress (store : String → Option Tx) (idx : List String)
    (limit : Nat) : List Tx :=
  (List.insertionSort (fun a b => tsDesc a b = true) (idx.filterMap store)).take limit

/-- `Mempool::has_pending_nonce`. -/
def Mempool.hasPendingNonce (m : Mempool) (sender : String) (nonce : Nat) : Bool :=
  match alookup m.bySender sender with
  | some senderTxs => (nlookup senderTxs nonce).isSome
  | none => false

/-- Two-level lookup on a raw sender index list. -/
def slookup (l : List (String × List (Nat × String))) (s : String) (n : Nat) : Option String :=
  match alookup l s with
  | some m => nlookup m n
  | none => none

/-- Lookup through both levels of the sender index (what
`by_sender.get(s).and_then(|m| m.get(n))` reads). -/
def Mempool.senderLookup (m : Mempool) (s : String) (n : Nat) : Option String :=
  match alookup m.bySender s with
  | some l => nlookup l n
  | none => none

/-- The contiguity property claimed of `drain_for_block`: for each sender in
the drained list, the drained nonces are exactly the consecutive run
starting at that sender's state nonce. -/
def sendersContiguous (stateNonce : String → Nat) (txs : List Tx) : Bool :=
  txs.all fun t =>
    ((txs.filter fun u => u.fromAddr == t.fromAddr).map Tx.nonce)
      == List.range' (stateNonce t.fromAddr) ((txs.filter fun u => u.fromAddr == t.fromAddr).length)

-- ==================== concrete fixtures used by witnesses ====================

/-- A deterministic environment for concrete runs: all signatures verify,
all addresses validate, the block hash function is constant. -/
def envA : Env :=
  { sigOk := fun _ => true
    validAddr := fun _ => true
    hashB := fun _ => "H"
    nowTs := 7
    nowNat := 7
    masterAddr := "m"
    tokenAddrHex := "aa"
    contractAddrHex := "bb" }

/-- The spec's S1 configuration: master balance 1000, block reward 10,
validator percent 50. -/
def cfgA : Config :=
  { masterBalance := 1000
    blockReward := 10
    validatorPercent := 50
    gasLimit := 1000000
    maxTxsPerBlock := 100 }

/-- A state where address `a` holds 10 MVM (10^9 base units). -/
def stA : State := (State.init).setBalance "a" 1000000000

/-- A signed self-transfer: 5·10^8 base units from `a` to `a`,
gas price 1000, nonce 0. -/
def txSelf : Tx :=
  { hash := "h1", txType := .Transfer, fromAddr := "a", toAddr := some "a",
    value := 500000000, gasPrice := 1000, gasLimit := 100000, gasUsed := 0,
    nonce := 0, data := none, timestamp := 5, signature := "sig", publicKey := "pk",
    status := .Pending, error := none }

/-- A deployed MVM-20 token with total supply 100, wholly held by `a`. -/
def tokA : MVM20Token :=
  { address := "mvm1tokenaa", name := "DEMO", symbol := "DMO", decimals := 8,
    totalSupply := 100, creator := "a", createdAt := 7 }

def stTok : State := (stA.saveToken tokA).setTokenBalance "mvm1tokenaa" "a" 100

/-- A token self-transfer: 30 units of `tokA` from `a` to `a`, gas price 0. -/
def txTokSelf : Tx :=
  { txSelf with
    txType := .TransferToken
    gasPrice := 0
    toAddr := none
    data := some (.TransferToken "mvm1tokenaa" "a" 30) }

/-- A `CreateToken` transaction whose `data` field is missing. -/
def txNoData : Tx :=
  { txSelf with
    txType := .CreateToken
    gasPrice := 0
    data := none }

/-- Two pending transactions of sender `a` with a nonce gap (0 and 2). -/
def txN0 : Tx := { txSelf with hash := "h1", nonce := 0 }

def txN2 : Tx := { txSelf with hash := "h2", nonce := 2 }

def mpGap : Mempool := (((Mempool.new).add txN0).2.add txN2).2

/-- Two indexed transactions of one address: hash `a` is older (timestamp 1)
but sorts first in the hash-ordered prefix scan; hash `b` is newer. -/
def txTsOld : Tx := { txSelf with hash := "a", timestamp := 1 }

def txTsNew : Tx := { txSelf with hash := "b", timestamp := 2 }

def storeAB : String → Option Tx := fun h =>
  if h = "a" then some txTsOld else if h = "b" then some txTsNew else none

/-- A deployed contract with owner `alice` and one variable `x`. -/
def cX : MoshContract :=
  { address := "mvm1contractbb", name := "C", creator := "alice", owner := "alice",
    createdAt := 7, token := none, vars := [⟨"x", .Uint64, none⟩], mappings := [], functions := [] }

def stC : State := (State.init).saveMoshContract cX

-- ==================== theorems ====================

/-- C2 (code bug): `transfer_mvm20` reads both balances before either
write, so a self-transfer (`from == to`) of 30 units ends with the single
holder's balance at 130 while the token record still says total supply
100: the holder-sum invariant Σ holders = total_supply is broken by a
reachable `TransferToken` transaction that reports Success. -/
theorem token_self_transfer_breaks_supply_invariant :
    (executeTransaction envA stTok txTokSelf).2.2 = none ∧
    stTok.tokenBalances "mvm1tokenaa" "a" = 100 ∧
    (executeTransaction envA stTok txTokSelf).1.tokenBalances "mvm1tokenaa" "a" = 130 ∧
    (executeTransaction envA stTok txTokSelf).1.tokens "mvm1tokenaa" = some tokA ∧
    tokA.totalSupply = 100 := by
  decide

/-- C3 (code bug): the genesis path of `Blockchain::new` never writes
`meta:total_supply`, so immediately after initialization with
`master_balance = 1000` the stored total supply reads 0 — not the
100_000_000_000 base units the claim requires — even though the master's
balance cell does hold 100_000_000_000; each produced block then adds
exactly `block_reward` (10^9 base units here). -/
theorem genesis_leaves_total_supply_zero :
    (genesisInit envA cfgA).totalSupply = 0 ∧
    (genesisInit envA cfgA).balances "m" = 100000000000 ∧
    (produceBlock envA cfgA (genesisInit envA cfgA) []).1.totalSupply = 1000000000 := by
  decide

/-- C4 (code bug): the `Transfer` branch reads the recipient balance before
debiting the sender, so when the recipient equals the sender the credit
overwrites the debit: a successful self-transfer of 5·10^8 from a balance
of 10^9 ends at 1.5·10^9 instead of decreasing by the gas fee. -/
theorem native_self_transfer_credits_value :
    (executeTransaction envA stA txSelf).2.2 = none ∧
    stA.balances "a" = 1000000000 ∧
    (executeTransaction envA stA txSelf).1.balances "a" = 1500000000 ∧
    (executeTransaction envA stA txSelf).1.nonces "a" = 1 := by
  decide

/-- C1 (counterexample): a `CreateToken` transaction with no `data` payload
passes every gate, is recorded with status Success in the produced block,
and yet leaves its sender's nonce at 0 — contradicting the claim that
every Success transaction increments its sender's nonce by exactly 1. -/
theorem success_without_effect_keeps_nonce :
    ((produceBlock envA cfgA (genesisInit envA cfgA) [txNoData]).2.transactions.map Tx.status
        = [TxStatus.Success]) ∧
    (produceBlock envA cfgA (genesisInit envA cfgA) [txNoData]).1.nonces "a" = 0 := by
  decide

/-- C6 (counterexample): the mempool accepts a nonce gap (0 and 2 pending
for one sender whose state nonce is 0) and `drain_for_block` returns both,
so the drained nonces are not contiguous relative to the sender's state
nonce. -/
theorem drain_for_block_nonce_gap :
    ((mpGap.drainForBlock 10).1.map Tx.nonce = [0, 2]) ∧
    sendersContiguous (State.init).nonces (mpGap.drainForBlock 10).1 = false := by
  decide

/-- C8 (counterexample): `MVM::deploy` accepts a schema with a variable
named `name` (the claim's reserved set wrongly includes `name`) and one
with a 33-character variable name (only the contract's own name is
length-checked; per-variable names and string contents are not). -/
theorem deploy_accepts_claimed_invalid_schema :
    (MVM.deploy "cc" 7 State.init "alice" "C" none [⟨"name", .Uint64, none⟩] [] []).1.isOk = true ∧
    (MVM.deploy "cc" 7 State.init "alice" "C" none
        [⟨String.mk (List.replicate 33 'x'), .Uint64, none⟩] [] []).1.isOk = true := by
  decide

/-- C10 (counterexample): with two indexed transactions — hash `a`
(timestamp 1) and hash `b` (timestamp 2) — and limit 1, the code truncates
the hash-ordered scan before sorting and returns the older transaction,
while the claimed sort-then-truncate would return the newer one. -/
theorem get_transactions_by_address_not_most_recent :
    (getTransactionsByAddress storeAB ["a", "b"] 1).map Tx.timestamp = [1] ∧
    (specGetTransactionsByAddress storeAB ["a", "b"] 1).map Tx.timestamp = [2] ∧
    getTransactionsByAddress storeAB ["a", "b"] 1 ≠ specGetTransactionsByAddress storeAB ["a", "b"] 1 := by
  decide

/-- C5: both block constructors assign the `hash` field by applying
`calculate_hash` to the block's own contents, so the stored hash always
equals the SHA-256 (abstracted `H`) of
height-LE ‖ prev_hash ‖ timestamp-LE ‖ validator ‖ tx hashes; the genesis
prev_hash is the 64-zero-character string; and the block persisted by
`produce_block` is built by `Block::new`, hence satisfies the same
equation. -/
theorem block_hash_reproducible :
    ∀ (H : List Nat → String) (height : Nat) (prevHash : String) (ts : Int)
      (validator : String) (txs : List Tx) (rw : BlockRewards) (gl : Nat)
      (mAddr : String) (mBal : Nat) (env : Env) (cfg : Config) (st : State) (btxs : List Tx),
    (Block.new H height prevHash ts validator txs rw gl).hash
        = Block.calculateHash H (Block.new H height prevHash ts validator txs rw gl) ∧
    (Block.genesis H ts mAddr mBal).hash = Block.calculateHash H (Block.genesis H ts mAddr mBal) ∧
    (Block.genesis H ts mAddr mBal).prevHash = String.mk (List.replicate 64 '0') ∧
    (produceBlock env cfg st btxs).2.hash
        = Block.calculateHash env.hashB (produceBlock env cfg st btxs).2 := by
  intro H height prevHash ts validator txs rw gl mAddr mBal env cfg st btxs
  exact ⟨rfl, rfl, rfl, rfl⟩

theorem block_hash_reproducible_witness :
    (Block.genesis (fun _ => "H") 7 "m" 5).prevHash = String.mk (List.replicate 64 '0') ∧
    (Block.new (fun _ => "H") 1 "p" 7 "m" [] ⟨0, [], 0⟩ 0).hash
        = Block.calculateHash (fun _ => "H") (Block.new (fun _ => "H") 1 "p" 7 "m" [] ⟨0, [], 0⟩ 0) :=
  ⟨(block_hash_reproducible (fun _ => "H") 1 "p" 7 "m" [] ⟨0, [], 0⟩ 0 "m" 5 envA cfgA State.init []).2.2.1,
   (block_hash_reproducible (fun _ => "H") 1 "p" 7 "m" [] ⟨0, [], 0⟩ 0 "m" 5 envA cfgA State.init []).1⟩


/-- A method starting with `set_` cannot start with `get_`. -/
theorem strStartsWith_set_not_get (s : String) (h : strStartsWith s "set_" = true) :
    strStartsWith s "get_" = false := by
  unfold strStartsWith at h ⊢
  cases hsd : s.data with
  | nil => rw [hsd] at h; exact absurd h (by decide)
  | cons c rest =>
    rw [hsd] at h
    have h1 : ('s' == c && List.isPrefixOf ['e', 't', '_'] rest) = true := h
    show ('g' == c && List.isPrefixOf ['e', 't', '_'] rest) = false
    cases hb : ('s' == c) with
    | false => rw [hb] at h1; simp at h1
    | true =>
      have hcs : c = 's' := (eq_of_beq hb).symm
      rw [hcs]
      rfl

/-- C9: with the contract record present, every `get_`-prefixed call
returns without touching the state, and every `set_`-prefixed call by a
caller other than the stored owner returns the `Only owner` error (with
base+setter gas 10000) without touching the state. -/
theorem auto_accessors_do_not_mutate_state
    (now : Nat) (st : State) (caller addr fn : String) (args : List String)
    (amt : Nat) (c : MoshContract) (hc : st.moshContracts addr = some c) :
    (strStartsWith fn "get_" = true → (MVM.call now st caller addr fn args amt).2 = st) ∧
    (strStartsWith fn "set_" = true → caller ≠ c.owner →
      (MVM.call now st caller addr fn args amt).1 = .ok (CallResult.err "Only owner" 10000) ∧
      (MVM.call now st caller addr fn args amt).2 = st) := by
  constructor
  · intro hg
    simp only [MVM.call, hc, hg]
    split
    · repeat' split
      all_goals rfl
    · next hT => exact (hT trivial).elim
  · intro hs hco
    have hg := strStartsWith_set_not_get fn hs
    simp only [MVM.call, hc, hg, hs]
    rw [if_pos trivial, if_pos hco]
    exact ⟨rfl, rfl⟩

theorem auto_accessors_do_not_mutate_state_witness :
    (MVM.call 7 stC "bob" "mvm1contractbb" "set_x" ["5"] 0).1
        = .ok (CallResult.err "Only owner" 10000) ∧
    (MVM.call 7 stC "bob" "mvm1contractbb" "set_x" ["5"] 0).2 = stC :=
  (auto_accessors_do_not_mutate_state 7 stC "bob" "mvm1contractbb" "set_x" ["5"] 0 cX
    (by decide)).2 (by decide) (by decide)

/-- Looking up the just-inserted nonce in the sorted index finds it. -/
theorem nlookup_insertNonceSorted (n : Nat) (h : String) (l : List (Nat × String)) :
    nlookup (insertNonceSorted n h l) n = some h := by
  induction l with
  | nil => simp [insertNonceSorted, nlookup]
  | cons p rest ih =>
    obtain ⟨n', h'⟩ := p
    unfold insertNonceSorted
    by_cases h1 : n < n'
    · rw [if_pos h1]; simp [nlookup]
    · rw [if_neg h1]
      by_cases h2 : n = n'
      · rw [if_pos h2]; simp [nlookup]
      · rw [if_neg h2]; simp [nlookup, h2, ih]

/-- `updSender` rewrites exactly the target sender's index, inserting into
its current (possibly empty) nonce map. -/
theorem alookup_updSender (l : List (String × List (Nat × String))) (s : String)
    (n : Nat) (h : String) :
    alookup (updSender l s n h) s = some (insertNonceSorted n h ((alookup l s).getD [])) := by
  induction l with
  | nil => simp [updSender, alookup, insertNonceSorted]
  | cons p rest ih =>
    obtain ⟨s', m⟩ := p
    unfold updSender
    by_cases h1 : s = s'
    · rw [if_pos h1]; simp [alookup, h1]
    · rw [if_neg h1]; simp [alookup, h1, ih]

/-- C7: `Mempool::add` is a no-op returning the duplicate signal
`Ok(false)` when the hash is already present; fails (again as a no-op)
with the pending-nonce error when the (sender, nonce) pair is pending
under another hash; and otherwise returns `Ok(true)`, records the
transaction under its hash in `by_hash` and under (sender, nonce) in
`by_sender`, increments the population count by exactly one, and makes an
immediate repeat of the same `add` return the duplicate signal without
further change. -/
theorem mempool_add_semantics (m : Mempool) (tx : Tx) :
    ((alookup m.byHash tx.hash).isSome = true → m.add tx = (.ok false, m)) ∧
    (alookup m.byHash tx.hash = none → m.hasPendingNonce tx.fromAddr tx.nonce = true →
      m.add tx = (.error ("Transaction with nonce " ++ toString tx.nonce ++
        " already pending for " ++ tx.fromAddr), m)) ∧
    (alookup m.byHash tx.hash = none → m.hasPendingNonce tx.fromAddr tx.nonce = false →
      (m.add tx).1 = .ok true ∧
      alookup (m.add tx).2.byHash tx.hash = some tx ∧
      (m.add tx).2.senderLookup tx.fromAddr tx.nonce = some tx.hash ∧
      (m.add tx).2.count = m.count + 1 ∧
      (m.add tx).2.add tx = (.ok false, (m.add tx).2)) := by
  refine ⟨?_, ?_, ?_⟩
  · intro h
    unfold Mempool.add
    rw [if_pos h]
  · intro h hp
    unfold Mempool.hasPendingNonce at hp
    unfold Mempool.add
    rw [if_neg (by simp [h]), if_pos hp]
  · intro h hp
    unfold Mempool.hasPendingNonce at hp
    unfold Mempool.add
    rw [if_neg (by simp [h]), if_neg (by simp [hp])]
    refine ⟨rfl, ?_, ?_, rfl, ?_⟩
    · simp [alookup]
    · unfold Mempool.senderLookup
      simp only [alookup_updSender]
      simp [nlookup_insertNonceSorted]
    · simp [alookup]

theorem mempool_add_semantics_witness :
    ((Mempool.new).add txN0).1 = .ok true ∧
    alookup ((Mempool.new).add txN0).2.byHash txN0.hash = some txN0 ∧
    ((Mempool.new).add txN0).2.senderLookup txN0.fromAddr txN0.nonce = some txN0.hash ∧
    ((Mempool.new).add txN0).2.count = Mempool.new.count + 1 ∧
    ((Mempool.new).add txN0).2.add txN0 = (.ok false, ((Mempool.new).add txN0).2) :=
  (mempool_add_semantics Mempool.new txN0).2.2 (by decide) (by decide)

/-- C10 (amended): `get_transactions_by_address` returns the transactions
loaded from the **first** `limit` index entries of the hash-ordered prefix
scan, sorted among themselves by timestamp descending; this equals the
claimed `limit` most-recent selection whenever the address has at most
`limit` indexed entries (the truncation happens before the sort, not
after). -/
theorem get_transactions_by_address_first_limit_sorted
    (store : String → Option Tx) (idx : List String) (limit : Nat) :
    List.Sorted (fun a b => tsDesc a b = true) (getTransactionsByAddress store idx limit) ∧
    (getTransactionsByAddress store idx limit).Perm ((idx.take limit).filterMap store) ∧
    (idx.length ≤ limit → getTransactionsByAddress store idx limit
        = specGetTransactionsByAddress store idx limit) := by
  haveI : IsTrans Tx (fun a b => tsDesc a b = true) := ⟨by
    intro a b c hab hbc
    simp only [tsDesc, decide_eq_true_eq] at *
    exact le_trans hbc hab⟩
  haveI : IsTotal Tx (fun a b => tsDesc a b = true) := ⟨by
    intro a b
    simp only [tsDesc, decide_eq_true_eq]
    exact le_total b.timestamp a.timestamp⟩
  refine ⟨?_, ?_, ?_⟩
  · exact List.sorted_insertionSort _ _
  · exact List.perm_insertionSort _ _
  · intro hlen
    unfold getTransactionsByAddress specGetTransactionsByAddress
    rw [List.take_of_length_le hlen]
    have h2 : (List.insertionSort (fun a b => tsDesc a b = true) (idx.filterMap store)).length ≤ limit := by
      rw [List.length_insertionSort]
      exact le_trans (List.length_filterMap_le _ _) hlen
    rw [List.take_of_length_le h2]

theorem get_transactions_by_address_first_limit_sorted_witness :
    getTransactionsByAddress storeAB ["a", "b"] 5 = specGetTransactionsByAddress storeAB ["a", "b"] 5 :=
  (get_transactions_by_address_first_limit_sorted storeAB ["a", "b"] 5).2.2 (by decide)

/-- What passing the variable check means: the accumulator comes back with
the variable names prepended, no variable name is reserved, and
no-duplicate status is preserved. -/
theorem deployCheckVars_ok (vars : List VarDef) :
    ∀ (names names' : List String), deployCheckVars vars names = .ok names' →
    names' = (vars.map VarDef.name).reverse ++ names ∧
    (∀ v ∈ vars, v.name ∉ (["owner", "creator", "token", "address", "balance"] : List String)) ∧
    (names.Nodup → names'.Nodup) := by
  induction vars with
  | nil =>
    intro names names' h
    unfold deployCheckVars at h
    cases h
    exact ⟨by simp, by simp, fun hn => hn⟩
  | cons v rest ih =>
    intro names names' h
    unfold deployCheckVars at h
    by_cases hr : v.name ∈ (["owner", "creator", "token", "address", "balance"] : List String)
    · rw [if_pos hr] at h; cases h
    · rw [if_neg hr] at h
      by_cases hmem : v.name ∈ names
      · rw [if_pos hmem] at h; cases h
      · rw [if_neg hmem] at h
        obtain ⟨e1, e2, e3⟩ := ih (v.name :: names) names' h
        refine ⟨?_, ?_, ?_⟩
        · rw [e1]; simp
        · intro w hw
          rcases List.mem_cons.mp hw with rfl | hw'
          · exact hr
          · exact e2 w hw'
        · intro hn
          exact e3 (List.nodup_cons.mpr ⟨hmem, hn⟩)

/-- What passing the mapping check means. -/
theorem deployCheckMaps_ok (maps : List MappingDef) :
    ∀ (names names' : List String), deployCheckMaps maps names = .ok names' →
    names' = (maps.map MappingDef.name).reverse ++ names ∧
    (names.Nodup → names'.Nodup) := by
  induction maps with
  | nil =>
    intro names names' h
    unfold deployCheckMaps at h
    cases h
    exact ⟨by simp, fun hn => hn⟩
  | cons m rest ih =>
    intro names names' h
    unfold deployCheckMaps at h
    by_cases hmem : m.name ∈ names
    · rw [if_pos hmem] at h; cases h
    · rw [if_neg hmem] at h
      obtain ⟨e1, e2⟩ := ih (m.name :: names) names' h
      refine ⟨?_, ?_⟩
      · rw [e1]; simp
      · intro hn
        exact e2 (List.nodup_cons.mpr ⟨hmem, hn⟩)

/-- What passing the function check means. -/
theorem deployCheckFns_ok (fns : List FnDef) (h : deployCheckFns fns = .ok ()) :
    ∀ f ∈ fns, f.body.length ≤ MAX_OPS_PER_FUNCTION := by
  induction fns with
  | nil => intro f hf; cases hf
  | cons f0 rest ih =>
    unfold deployCheckFns at h
    by_cases hl : f0.body.length > MAX_OPS_PER_FUNCTION
    · rw [if_pos hl] at h; cases h
    · rw [if_neg hl] at h
      intro f hf
      rcases List.mem_cons.mp hf with rfl | hf'
      · exact le_of_not_lt hl
      · exact ih h f hf'

/-- C8 (amended): `MVM::deploy` rejects — and writes neither the contract
record nor any variable cell — whenever the contract name is empty or over
32 bytes, there are more than 10 variables, more than 5 mappings, more
than 10 functions, a function body of more than 20 operations, a variable
named in the reserved set {owner, creator, token, address, balance}, or a
duplicate name among the variables and mappings.  (Per-variable name
lengths, string contents, and the name `name` are not checked.) -/
theorem deploy_rejects_invalid_schema
    (addrHex : String) (createdAt : Int) (st : State) (creator name : String)
    (token : Option String) (vars : List VarDef) (mappings : List MappingDef)
    (functions : List FnDef)
    (h : utf8Len name = 0 ∨ utf8Len name > MAX_NAME_LENGTH ∨
         vars.length > MAX_VARIABLES ∨ mappings.length > MAX_MAPPINGS ∨
         functions.length > MAX_FUNCTIONS ∨
         (∃ f ∈ functions, f.body.length > MAX_OPS_PER_FUNCTION) ∨
         (∃ v ∈ vars, v.name ∈ (["owner", "creator", "token", "address", "balance"] : List String)) ∨
         ¬ (vars.map VarDef.name ++ mappings.map MappingDef.name).Nodup) :
    (MVM.deploy addrHex createdAt st creator name token vars mappings functions).1.isOk = false ∧
    (MVM.deploy addrHex createdAt st creator name token vars mappings functions).2 = st := by
  unfold MVM.deploy
  split_ifs with h1 h2 h3 h4
  · exact ⟨rfl, rfl⟩
  · exact ⟨rfl, rfl⟩
  · exact ⟨rfl, rfl⟩
  · exact ⟨rfl, rfl⟩
  · split
    next e hv => exact ⟨rfl, rfl⟩
    next names hv =>
      split
      next e hm => exact ⟨rfl, rfl⟩
      next names2 hm =>
        split
        next e hf => exact ⟨rfl, rfl⟩
        next u hf =>
          cases u
          obtain ⟨hveq, hvres, hvnd⟩ := deployCheckVars_ok vars [] names hv
          obtain ⟨hmeq, hmnd⟩ := deployCheckMaps_ok mappings names names2 hm
          rcases h with hx | hx | hx | hx | hx | hx | hx | hx
          · exact absurd (Or.inl hx) h1
          · exact absurd (Or.inr hx) h1
          · exact absurd hx h2
          · exact absurd hx h3
          · exact absurd hx h4
          · obtain ⟨f, hfm, hfl⟩ := hx
            exact absurd hfl (not_lt.mpr (deployCheckFns_ok functions hf f hfm))
          · obtain ⟨v, hvm, hvr⟩ := hx
            exact absurd hvr (hvres v hvm)
          · apply hx.elim
            have hnd2 : names2.Nodup := hmnd (hvnd List.nodup_nil)
            rw [hmeq, hveq] at hnd2
            simp only [List.append_nil] at hnd2
            have hperm : ((mappings.map MappingDef.name).reverse ++ (vars.map VarDef.name).reverse).Perm
                (vars.map VarDef.name ++ mappings.map MappingDef.name) :=
              (((mappings.map MappingDef.name).reverse_perm).append
                ((vars.map VarDef.name).reverse_perm)).trans List.perm_append_comm
            exact hperm.nodup hnd2

theorem deploy_rejects_invalid_schema_witness :
    (MVM.deploy "cc" 7 State.init "alice" "C" none
        [⟨"balance", .Uint64, none⟩] [] []).1.isOk = false ∧
    (MVM.deploy "cc" 7 State.init "alice" "C" none
        [⟨"balance", .Uint64, none⟩] [] []).2 = State.init :=
  deploy_rejects_invalid_schema "cc" 7 State.init "alice" "C" none
    [⟨"balance", .Uint64, none⟩] [] []
    (Or.inr (Or.inr (Or.inr (Or.inr (Or.inr (Or.inr (Or.inl (by decide))))))))

theorem charListLt_trans : ∀ (a b c : List Char),
    charListLt a b = true → charListLt b c = true → charListLt a c = true := by
  intro a
  induction a with
  | nil =>
    intro b c hab hbc
    cases b with
    | nil => exact absurd hab (by simp [charListLt])
    | cons y ys =>
      cases c with
      | nil => exact absurd hbc (by simp [charListLt])
      | cons z zs => simp [charListLt]
  | cons x xs ih =>
    intro b c hab hbc
    cases b with
    | nil => exact absurd hab (by simp [charListLt])
    | cons y ys =>
      cases c with
      | nil => exact absurd hbc (by simp [charListLt])
      | cons z zs =>
        unfold charListLt at hab hbc ⊢
        by_cases hxy : x < y
        · by_cases hyz : y < z
          · rw [if_pos (lt_trans hxy hyz)]
          · rw [if_neg hyz] at hbc
            by_cases hzy : z < y
            · rw [if_pos hzy] at hbc; cases hbc
            · have hez : y = z := le_antisymm (not_lt.mp hzy) (not_lt.mp hyz)
              rw [if_pos (hez ▸ hxy)]
        · rw [if_neg hxy] at hab
          by_cases hyx : y < x
          · rw [if_pos hyx] at hab; cases hab
          · rw [if_neg hyx] at hab
            have hex : x = y := le_antisymm (not_lt.mp hyx) (not_lt.mp hxy)
            by_cases hyz : y < z
            · rw [if_pos (hex ▸ hyz)]
            · rw [if_neg hyz] at hbc
              by_cases hzy : z < y
              · rw [if_pos hzy] at hbc; cases hbc
              · have hez : y = z := le_antisymm (not_lt.mp hzy) (not_lt.mp hyz)
                rw [if_neg hzy] at hbc
                have hxz' : x = z := hex.trans hez
                have hxz : ¬ x < z := by rw [hxz']; exact lt_irrefl z
                have hzx : ¬ z < x := by rw [hxz']; exact lt_irrefl z
                rw [if_neg hxz, if_neg hzx]
                exact ih ys zs hab hbc

theorem charListLt_conn : ∀ (a b : List Char),
    charListLt a b = false → charListLt b a = false → a = b := by
  intro a
  induction a with
  | nil =>
    intro b h1 _
    cases b with
    | nil => rfl
    | cons y ys => simp [charListLt] at h1
  | cons x xs ih =>
    intro b h1 h2
    cases b with
    | nil => simp [charListLt] at h2
    | cons y ys =>
      unfold charListLt at h1 h2
      by_cases hxy : x < y
      · rw [if_pos hxy] at h1; cases h1
      · rw [if_neg hxy] at h1
        by_cases hyx : y < x
        · rw [if_pos hyx] at h2; cases h2
        · rw [if_neg hyx] at h1
          rw [if_neg hyx, if_neg hxy] at h2
          have hex : x = y := le_antisymm (not_lt.mp hyx) (not_lt.mp hxy)
          rw [hex, ih ys h1 h2]

theorem strLt_trans {a b c : String} (h1 : strLt a b = true) (h2 : strLt b c = true) :
    strLt a c = true :=
  charListLt_trans a.data b.data c.data h1 h2

theorem strLt_conn {a b : String} (h1 : strLt a b = false) (h2 : strLt b a = false) :
    a = b := by
  cases a with
  | mk da =>
    cases b with
    | mk db =>
      have : da = db := charListLt_conn da db h1 h2
      rw [this]

theorem alookup_eq_none_of_not_mem {β : Type} {l : List (String × β)} {x : String}
    (h : x ∉ l.map Prod.fst) : alookup l x = none := by
  induction l with
  | nil => rfl
  | cons e rest ih =>
    obtain ⟨k, v⟩ := e
    simp only [List.map_cons, List.mem_cons] at h
    push_neg at h
    simp only [alookup, if_neg h.1]
    exact ih h.2

theorem alookup_of_mem_nodup {β : Type} {l : List (String × β)} {k : String} {v : β}
    (hnd : (l.map Prod.fst).Nodup) (hm : (k, v) ∈ l) : alookup l k = some v := by
  induction l with
  | nil => cases hm
  | cons e rest ih =>
    obtain ⟨k', v'⟩ := e
    simp only [List.map_cons, List.nodup_cons] at hnd
    rcases List.mem_cons.mp hm with heq | hm'
    · cases heq
      simp [alookup]
    · by_cases hk : k = k'
      · subst hk
        exact absurd (List.mem_map.mpr ⟨(k, v), hm', rfl⟩) hnd.1
      · simp only [alookup, if_neg hk]
        exact ih hnd.2 hm'

theorem nlookup_eq_none_of_not_mem {β : Type} {l : List (Nat × β)} {x : Nat}
    (h : x ∉ l.map Prod.fst) : nlookup l x = none := by
  induction l with
  | nil => rfl
  | cons e rest ih =>
    obtain ⟨k, v⟩ := e
    simp only [List.map_cons, List.mem_cons] at h
    push_neg at h
    simp only [nlookup, if_neg h.1]
    exact ih h.2

theorem removeHashEntry_sublist (h : String) (l : List (String × Tx)) :
    List.Sublist (removeHashEntry h l) l := by
  induction l with
  | nil => exact List.Sublist.refl _
  | cons e rest ih =>
    obtain ⟨k, t⟩ := e
    unfold removeHashEntry
    by_cases hk : k = h
    · rw [if_pos hk]
      exact List.sublist_cons_self _ _
    · rw [if_neg hk]
      exact ih.cons₂ _

theorem alookup_removeHashEntry {l : List (String × Tx)} (hnd : (l.map Prod.fst).Nodup)
    (h x : String) :
    alookup (removeHashEntry h l) x = if x = h then none else alookup l x := by
  induction l with
  | nil => simp [removeHashEntry, alookup]
  | cons e rest ih =>
    obtain ⟨k, t⟩ := e
    simp only [List.map_cons, List.nodup_cons] at hnd
    unfold removeHashEntry
    by_cases hk : k = h
    · rw [if_pos hk]
      by_cases hx : x = h
      · rw [if_pos hx]
        subst hk; subst hx
        exact alookup_eq_none_of_not_mem hnd.1
      · rw [if_neg hx]
        have hxk : x ≠ k := fun hh => hx (hh.trans hk)
        simp only [alookup, if_neg hxk]
    · rw [if_neg hk]
      simp only [alookup]
      by_cases hx : x = k
      · have hxh : x ≠ h := fun hh => hk (hx ▸ hh)
        rw [if_pos hx, if_neg hxh, if_pos hx]
      · rw [if_neg hx]
        by_cases hxh : x = h
        · rw [if_pos hxh]
          rw [ih hnd.2, if_pos hxh]
        · rw [if_neg hxh, if_neg hx]
          rw [ih hnd.2, if_neg hxh]

theorem removeNonce_sublist (n : Nat) (l : List (Nat × String)) :
    List.Sublist (removeNonce n l) l := by
  induction l with
  | nil => exact List.Sublist.refl _
  | cons e rest ih =>
    obtain ⟨k, v⟩ := e
    unfold removeNonce
    by_cases hk : k = n
    · rw [if_pos hk]
      exact List.sublist_cons_self _ _
    · rw [if_neg hk]
      exact ih.cons₂ _

theorem nlookup_removeNonce {l : List (Nat × String)} (hnd : (l.map Prod.fst).Nodup)
    (n x : Nat) :
    nlookup (removeNonce n l) x = if x = n then none else nlookup l x := by
  induction l with
  | nil => simp [removeNonce, nlookup]
  | cons e rest ih =>
    obtain ⟨k, v⟩ := e
    simp only [List.map_cons, List.nodup_cons] at hnd
    unfold removeNonce
    by_cases hk : k = n
    · rw [if_pos hk]
      by_cases hx : x = n
      · rw [if_pos hx]
        subst hk; subst hx
        exact nlookup_eq_none_of_not_mem hnd.1
      · rw [if_neg hx]
        have hxk : x ≠ k := fun hh => hx (hh.trans hk)
        simp only [nlookup, if_neg hxk]
    · rw [if_neg hk]
      simp only [nlookup]
      by_cases hx : x = k
      · have hxh : x ≠ n := fun hh => hk (hx ▸ hh)
        rw [if_pos hx, if_neg hxh, if_pos hx]
      · rw [if_neg hx]
        by_cases hxh : x = n
        · rw [if_pos hxh]
          rw [ih hnd.2, if_pos hxh]
        · rw [if_neg hxh, if_neg hx]
          rw [ih hnd.2, if_neg hxh]

theorem removeNonce_eq_nil {l : List (Nat × String)} {n : Nat}
    (h : removeNonce n l = []) (x : Nat) (hx : x ≠ n) : nlookup l x = none := by
  cases l with
  | nil => rfl
  | cons e rest =>
    obtain ⟨k, v⟩ := e
    unfold removeNonce at h
    by_cases hk : k = n
    · rw [if_pos hk] at h
      have hxk : x ≠ k := fun hh => hx (hh.trans hk)
      simp only [nlookup, if_neg hxk]
      rw [h]
      rfl
    · rw [if_neg hk] at h
      cases h

theorem senderLookup_eq_slookup (m : Mempool) (s : String) (n : Nat) :
    m.senderLookup s n = slookup m.bySender s n := rfl

theorem bySenderRemove_keys_sublist (l : List (String × List (Nat × String)))
    (sender : String) (n : Nat) :
    List.Sublist ((bySenderRemove l sender n).map Prod.fst) (l.map Prod.fst) := by
  induction l with
  | nil => exact List.Sublist.refl _
  | cons e rest ih =>
    obtain ⟨s0, m0⟩ := e
    unfold bySenderRemove
    by_cases hs : sender = s0
    · rw [if_pos hs]
      show List.Sublist ((if removeNonce n m0 = [] then rest
        else (s0, removeNonce n m0) :: rest).map Prod.fst) _
      by_cases hme : removeNonce n m0 = []
      · rw [if_pos hme]
        exact (List.Sublist.refl _).cons _
      · rw [if_neg hme]
        exact (List.Sublist.refl _).cons₂ _
    · rw [if_neg hs]
      exact ih.cons₂ _

theorem bySenderRemove_inner {l : List (String × List (Nat × String))}
    (hinner : ∀ e ∈ l, (e.2.map Prod.fst).Nodup) (sender : String) (n : Nat) :
    ∀ e ∈ bySenderRemove l sender n, (e.2.map Prod.fst).Nodup := by
  induction l with
  | nil => intro e he; cases he
  | cons p rest ih =>
    obtain ⟨s0, m0⟩ := p
    have hm0 : (m0.map Prod.fst).Nodup := hinner (s0, m0) (List.mem_cons_self _ _)
    have hrest : ∀ e ∈ rest, (e.2.map Prod.fst).Nodup :=
      fun e he => hinner e (List.mem_cons_of_mem _ he)
    unfold bySenderRemove
    by_cases hs : sender = s0
    · rw [if_pos hs]
      show ∀ e ∈ (if removeNonce n m0 = [] then rest
        else (s0, removeNonce n m0) :: rest), (e.2.map Prod.fst).Nodup
      by_cases hme : removeNonce n m0 = []
      · rw [if_pos hme]; exact hrest
      · rw [if_neg hme]
        intro e he
        rcases List.mem_cons.mp he with rfl | he'
        · exact hm0.sublist ((removeNonce_sublist n m0).map Prod.fst)
        · exact hrest e he'
    · rw [if_neg hs]
      intro e he
      rcases List.mem_cons.mp he with rfl | he'
      · exact hm0
      · exact ih hrest e he'

theorem slookup_cons (k : String) (v : List (Nat × String))
    (l : List (String × List (Nat × String))) (s : String) (x : Nat) :
    slookup ((k, v) :: l) s x = if s = k then nlookup v x else slookup l s x := by
  by_cases hss : s = k
  · simp [slookup, alookup, hss]
  · simp [slookup, alookup, hss]

theorem slookup_bySenderRemove {l : List (String × List (Nat × String))}
    (houter : (l.map Prod.fst).Nodup)
    (hinner : ∀ e ∈ l, (e.2.map Prod.fst).Nodup)
    (sender : String) (n : Nat) (s : String) (x : Nat) :
    slookup (bySenderRemove l sender n) s x =
      if s = sender ∧ x = n then none else slookup l s x := by
  induction l with
  | nil =>
    simp only [bySenderRemove, slookup, alookup]
    rw [ite_self]
  | cons p rest ih =>
    obtain ⟨s0, m0⟩ := p
    simp only [List.map_cons, List.nodup_cons] at houter
    have hm0 : (m0.map Prod.fst).Nodup := hinner (s0, m0) (List.mem_cons_self _ _)
    have hrest : ∀ e ∈ rest, (e.2.map Prod.fst).Nodup :=
      fun e he => hinner e (List.mem_cons_of_mem _ he)
    unfold bySenderRemove
    rw [slookup_cons]
    by_cases hs : sender = s0
    · rw [if_pos hs]
      show slookup (if removeNonce n m0 = [] then rest
        else (s0, removeNonce n m0) :: rest) s x = _
      by_cases hme : removeNonce n m0 = []
      · rw [if_pos hme]
        by_cases hss : s = s0
        · have hnone : slookup rest s x = none := by
            unfold slookup
            rw [hss, alookup_eq_none_of_not_mem houter.1]
          rw [hnone]
          by_cases hcond : s = sender ∧ x = n
          · rw [if_pos hcond]
          · rw [if_neg hcond, if_pos hss]
            have hxn : x ≠ n := by
              intro hx
              exact hcond ⟨hss.trans hs.symm, hx⟩
            exact (removeNonce_eq_nil hme x hxn).symm
        · have hcond : ¬(s = sender ∧ x = n) := by
            intro hc
            exact hss (hc.1.trans hs)
          rw [if_neg hcond, if_neg hss]
      · rw [if_neg hme]
        rw [slookup_cons]
        by_cases hss : s = s0
        · rw [if_pos hss, if_pos hss]
          rw [nlookup_removeNonce hm0]
          by_cases hxn : x = n
          · rw [if_pos hxn, if_pos ⟨hss.trans hs.symm, hxn⟩]
          · rw [if_neg hxn, if_neg (fun hc : s = sender ∧ x = n => hxn hc.2)]
        · rw [if_neg hss, if_neg hss]
          rw [if_neg (fun hc : s = sender ∧ x = n => hss (hc.1.trans hs))]
    · rw [if_neg hs]
      rw [slookup_cons]
      by_cases hss : s = s0
      · rw [if_pos hss, if_pos hss]
        rw [if_neg (fun hc : s = sender ∧ x = n => hs ((hc.1.symm.trans hss).symm).symm)]
      · rw [if_neg hss, if_neg hss]
        exact ih houter.2 hrest

theorem mempool_remove_found {m : Mempool} {h : String} {tx : Tx}
    (hfound : alookup m.byHash h = some tx) :
    (m.remove h).2.byHash = removeHashEntry h m.byHash ∧
    (m.remove h).2.bySender = bySenderRemove m.bySender tx.fromAddr tx.nonce ∧
    (m.remove h).2.count = m.count - 1 := by
  unfold Mempool.remove
  rw [hfound]
  exact ⟨rfl, rfl, rfl⟩

theorem drainFoldSpec : ∀ (ts : List Tx) (m : Mempool),
    (∀ e ∈ m.byHash, e.1 = e.2.hash) →
    (m.byHash.map Prod.fst).Nodup →
    (m.bySender.map Prod.fst).Nodup →
    (∀ e ∈ m.bySender, (e.2.map Prod.fst).Nodup) →
    (ts.map Tx.hash).Nodup →
    (∀ t ∈ ts, alookup m.byHash t.hash = some t) →
    (∀ x, alookup (ts.foldl (fun mm t => (mm.remove t.hash).2) m).byHash x =
        if x ∈ ts.map Tx.hash then none else alookup m.byHash x) ∧
    (∀ s n, (ts.foldl (fun mm t => (mm.remove t.hash).2) m).senderLookup s n =
        if (ts.any fun t => t.fromAddr == s && t.nonce == n) = true then none
        else m.senderLookup s n) ∧
    (ts.foldl (fun mm t => (mm.remove t.hash).2) m).count = m.count - ts.length := by
  intro ts
  induction ts with
  | nil =>
    intro m _ _ _ _ _ _
    refine ⟨fun x => by simp, fun s n => by simp, by simp⟩
  | cons t rest ih =>
    intro m hkey hnod houter hinner htsnd hfind
    have hfoundt : alookup m.byHash t.hash = some t := hfind t (List.mem_cons_self _ _)
    obtain ⟨e1, e2, e3⟩ := mempool_remove_found hfoundt
    have hkey1 : ∀ e ∈ (m.remove t.hash).2.byHash, e.1 = e.2.hash := by
      rw [e1]
      intro e he
      exact hkey e ((removeHashEntry_sublist t.hash m.byHash).subset he)
    have hnod1 : ((m.remove t.hash).2.byHash.map Prod.fst).Nodup := by
      rw [e1]
      exact hnod.sublist ((removeHashEntry_sublist t.hash m.byHash).map Prod.fst)
    have houter1 : ((m.remove t.hash).2.bySender.map Prod.fst).Nodup := by
      rw [e2]
      exact houter.sublist (bySenderRemove_keys_sublist m.bySender t.fromAddr t.nonce)
    have hinner1 : ∀ e ∈ (m.remove t.hash).2.bySender, (e.2.map Prod.fst).Nodup := by
      rw [e2]
      exact bySenderRemove_inner hinner t.fromAddr t.nonce
    have htsnd' : (t.hash :: rest.map Tx.hash).Nodup := by
      rw [List.map_cons] at htsnd
      exact htsnd
    have htscons := List.nodup_cons.mp htsnd'
    have hfind1 : ∀ u ∈ rest, alookup (m.remove t.hash).2.byHash u.hash = some u := by
      intro u hu
      rw [e1, alookup_removeHashEntry hnod]
      have hne : u.hash ≠ t.hash := by
        intro hh
        exact htscons.1 (hh ▸ List.mem_map_of_mem Tx.hash hu)
      rw [if_neg hne]
      exact hfind u (List.mem_cons_of_mem _ hu)
    obtain ⟨f1, f2, f3⟩ := ih (m.remove t.hash).2 hkey1 hnod1 houter1 hinner1 htscons.2 hfind1
    refine ⟨?_, ?_, ?_⟩
    · intro x
      rw [List.foldl_cons, f1 x]
      by_cases hx : x ∈ rest.map Tx.hash
      · rw [if_pos hx, if_pos (by simp [hx])]
      · rw [if_neg hx, e1, alookup_removeHashEntry hnod]
        by_cases hxt : x = t.hash
        · rw [if_pos hxt, if_pos (by simp [hxt])]
        · rw [if_neg hxt, if_neg (by simp [hxt, hx])]
    · intro s n
      rw [List.foldl_cons, f2 s n]
      by_cases hr : (rest.any fun u => u.fromAddr == s && u.nonce == n) = true
      · rw [if_pos hr, if_pos (by simp [List.any_cons, hr])]
      · rw [if_neg hr]
        rw [senderLookup_eq_slookup, e2, slookup_bySenderRemove houter hinner]
        by_cases hts : s = t.fromAddr ∧ n = t.nonce
        · rw [if_pos hts]
          rw [if_pos (by simp [List.any_cons, hts.1, hts.2])]
        · rw [if_neg hts]
          rw [if_neg (by
            simp only [List.any_cons, Bool.or_eq_true, Bool.and_eq_true, beq_iff_eq]
            rintro (⟨ha, hb⟩ | hrr)
            · exact hts ⟨ha.symm, hb.symm⟩
            · exact hr (by simpa using hrr))]
          exact (senderLookup_eq_slookup m s n).symm
    · rw [List.foldl_cons, f3, e3]
      simp only [List.length_cons]
      omega

/-- C6 (amended): on a mempool satisfying the source invariants (`by_hash`
keys are the transactions' hashes and are distinct; the sender index's
outer and inner keys are distinct), `drain_for_block(max)` returns at most
`max` transactions, sorted by (sender ascending, nonce ascending), and
removes exactly the returned transactions from both indices (hash lookups
of drained hashes become `None`, sender-index lookups of drained
(sender, nonce) pairs become `None`, everything else is untouched, and the
count drops by the number returned).  Contiguity of the returned nonces
relative to the sender's state nonce is NOT guaranteed. -/
theorem drain_for_block_sorted_bounded_removes_exactly (m : Mempool) (max : Nat)
    (hkey : ∀ e ∈ m.byHash, e.1 = e.2.hash)
    (hnod : (m.byHash.map Prod.fst).Nodup)
    (houter : (m.bySender.map Prod.fst).Nodup)
    (hinner : ∀ e ∈ m.bySender, (e.2.map Prod.fst).Nodup) :
    (m.drainForBlock max).1.length ≤ max ∧
    List.Pairwise (fun a b => txKeyLe a b = true) (m.drainForBlock max).1 ∧
    (∀ x, alookup (m.drainForBlock max).2.byHash x =
        if x ∈ (m.drainForBlock max).1.map Tx.hash then none else alookup m.byHash x) ∧
    (∀ s n, (m.drainForBlock max).2.senderLookup s n =
        if ((m.drainForBlock max).1.any fun t => t.fromAddr == s && t.nonce == n) = true
        then none else m.senderLookup s n) ∧
    (m.drainForBlock max).2.count = m.count - (m.drainForBlock max).1.length := by
  haveI instTr : IsTrans Tx (fun a b => txKeyLe a b = true) := ⟨by
    intro a b c hab hbc
    simp only [txKeyLe, Bool.or_eq_true, Bool.and_eq_true, beq_iff_eq,
      decide_eq_true_eq] at hab hbc ⊢
    rcases hab with h1 | ⟨he1, hn1⟩ <;> rcases hbc with h2 | ⟨he2, hn2⟩
    · exact Or.inl (strLt_trans h1 h2)
    · exact Or.inl (he2 ▸ h1)
    · exact Or.inl (by rw [he1]; exact h2)
    · exact Or.inr ⟨he1.trans he2, le_trans hn1 hn2⟩⟩
  haveI instTo : IsTotal Tx (fun a b => txKeyLe a b = true) := ⟨by
    intro a b
    simp only [txKeyLe, Bool.or_eq_true, Bool.and_eq_true, beq_iff_eq, decide_eq_true_eq]
    cases h1 : strLt a.fromAddr b.fromAddr with
    | true => exact Or.inl (Or.inl rfl)
    | false =>
      cases h2 : strLt b.fromAddr a.fromAddr with
      | true => exact Or.inr (Or.inl rfl)
      | false =>
        have he := strLt_conn h1 h2
        rcases le_total a.nonce b.nonce with h | h
        · exact Or.inl (Or.inr ⟨he, h⟩)
        · exact Or.inr (Or.inr ⟨he.symm, h⟩)⟩
  have hsorted : List.Pairwise (fun a b => txKeyLe a b = true)
      (List.insertionSort (fun a b => txKeyLe a b = true) (m.byHash.map Prod.snd)) :=
    List.sorted_insertionSort _ _
  have hperm : (List.insertionSort (fun a b => txKeyLe a b = true)
      (m.byHash.map Prod.snd)).Perm (m.byHash.map Prod.snd) :=
    List.perm_insertionSort _ _
  have hmapeq : (m.byHash.map Prod.snd).map Tx.hash = m.byHash.map Prod.fst := by
    rw [List.map_map]
    exact List.map_congr_left fun e he => (hkey e he).symm
  have hsortnd : ((List.insertionSort (fun a b => txKeyLe a b = true)
      (m.byHash.map Prod.snd)).map Tx.hash).Nodup := by
    refine ((hperm.map Tx.hash).nodup_iff).mpr ?_
    rw [hmapeq]
    exact hnod
  have htsnd : ((m.getPending max).map Tx.hash).Nodup :=
    hsortnd.sublist ((List.take_sublist max _).map Tx.hash)
  have hfind : ∀ t ∈ m.getPending max, alookup m.byHash t.hash = some t := by
    intro t ht
    have ht1 : t ∈ m.byHash.map Prod.snd :=
      hperm.subset ((List.take_sublist max _).subset ht)
    obtain ⟨e, he, hv⟩ := List.mem_map.mp ht1
    obtain ⟨k, v⟩ := e
    have hk := hkey (k, v) he
    rw [← hv, ← hk]
    exact alookup_of_mem_nodup hnod he
  obtain ⟨f1, f2, f3⟩ := drainFoldSpec (m.getPending max) m hkey hnod houter hinner htsnd hfind
  refine ⟨List.length_take_le _ _, ?_, f1, f2, f3⟩
  exact hsorted.sublist (List.take_sublist max _)

theorem drain_sorted_bounded_removes_witness :
    (mpGap.drainForBlock 10).1.length ≤ 10 ∧
    (mpGap.drainForBlock 10).2.count = mpGap.count - (mpGap.drainForBlock 10).1.length :=
  ⟨(drain_for_block_sorted_bounded_removes_exactly mpGap 10 (by decide) (by decide)
      (by decide) (by decide)).1,
   (drain_for_block_sorted_bounded_removes_exactly mpGap 10 (by decide) (by decide)
      (by decide) (by decide)).2.2.2.2⟩

-- State-frame lemmas: the MVM and token layers never touch nonces, blocks
-- or the height cell.

theorem txStoreFold_frame (l : List Tx) :
    ∀ (s : State),
    ((l.foldl (fun s t => { s with txStore := upd s.txStore t.hash (some t) }) s).nonces = s.nonces ∧
     (l.foldl (fun s t => { s with txStore := upd s.txStore t.hash (some t) }) s).blocks = s.blocks ∧
     (l.foldl (fun s t => { s with txStore := upd s.txStore t.hash (some t) }) s).height = s.height ∧
     (l.foldl (fun s t => { s with txStore := upd s.txStore t.hash (some t) }) s).balances = s.balances ∧
     (l.foldl (fun s t => { s with txStore := upd s.txStore t.hash (some t) }) s).totalSupply = s.totalSupply) := by
  induction l with
  | nil => intro s; exact ⟨rfl, rfl, rfl, rfl, rfl⟩
  | cons t rest ih => intro s; exact ih _

theorem saveBlock_frame (st : State) (b : Block) :
    (st.saveBlock b).nonces = st.nonces ∧
    (st.saveBlock b).height = st.height ∧
    (st.saveBlock b).balances = st.balances ∧
    (st.saveBlock b).totalSupply = st.totalSupply ∧
    (st.saveBlock b).blocks = fun h => if h = b.height then some b else st.blocks h := by
  unfold State.saveBlock
  obtain ⟨h1, h2, h3, h4, h5⟩ := txStoreFold_frame b.transactions
    { st with
      blocks := fun h => if h = b.height then some b else st.blocks h
      blockHashIdx := upd st.blockHashIdx b.hash (some b.height) }
  exact ⟨h1, h3, h4, h5, h2⟩

theorem runOps_frame (c : MoshContract) (addr : String) (ops : List Operation) :
    ∀ (st : State) (ctx : ExecContext) (gas : Nat) (rv : Option String),
    ((MVM.runOps c addr ops st ctx gas rv).1.nonces = st.nonces ∧
     (MVM.runOps c addr ops st ctx gas rv).1.blocks = st.blocks ∧
     (MVM.runOps c addr ops st ctx gas rv).1.height = st.height) := by
  induction ops with
  | nil => intro st ctx gas rv; exact ⟨rfl, rfl, rfl⟩
  | cons op rest ih =>
    intro st ctx gas rv
    simp only [MVM.runOps]
    by_cases h1 : op.op = "set"
    · rw [if_pos h1]; exact ih _ _ _ _
    · rw [if_neg h1]
      by_cases h2 : op.op = "add"
      · rw [if_pos h2]; exact ih _ _ _ _
      · rw [if_neg h2]
        by_cases h3 : op.op = "sub"
        · rw [if_pos h3]; exact ih _ _ _ _
        · rw [if_neg h3]
          by_cases h4 : op.op = "map_set"
          · rw [if_pos h4]; exact ih _ _ _ _
          · rw [if_neg h4]
            by_cases h5 : op.op = "map_add"
            · rw [if_pos h5]; exact ih _ _ _ _
            · rw [if_neg h5]
              by_cases h6 : op.op = "map_sub"
              · rw [if_pos h6]; exact ih _ _ _ _
              · rw [if_neg h6]
                by_cases h7 : op.op = "require"
                · rw [if_pos h7]
                  repeat' split
                  all_goals first
                  | exact ⟨rfl, rfl, rfl⟩
                  | exact ih _ _ _ _
                · rw [if_neg h7]
                  by_cases h8 : op.op = "transfer"
                  · rw [if_pos h8]
                    split
                    · exact ⟨rfl, rfl, rfl⟩
                    · split
                      · exact ⟨rfl, rfl, rfl⟩
                      · exact ih _ _ _ _
                  · rw [if_neg h8]
                    by_cases h9 : op.op = "return"
                    · rw [if_pos h9]; exact ih _ _ _ _
                    · rw [if_neg h9]
                      by_cases h10 : op.op = "let"
                      · rw [if_pos h10]; exact ih _ _ _ _
                      · rw [if_neg h10]; exact ⟨rfl, rfl, rfl⟩

theorem call_frame (now : Nat) (st : State) (caller addr fn : String)
    (args : List String) (amt : Nat) :
    (MVM.call now st caller addr fn args amt).2.nonces = st.nonces ∧
    (MVM.call now st caller addr fn args amt).2.blocks = st.blocks ∧
    (MVM.call now st caller addr fn args amt).2.height = st.height := by
  unfold MVM.call
  try dsimp only []
  repeat' split
  all_goals first
  | exact ⟨rfl, rfl, rfl⟩
  | exact runOps_frame _ _ _ _ _ _ _

theorem executeCall_frame (now : Nat) (st : State) (contract method : String)
    (args : List String) :
    (MVM.executeCall now st contract method args).2.nonces = st.nonces ∧
    (MVM.executeCall now st contract method args).2.blocks = st.blocks ∧
    (MVM.executeCall now st contract method args).2.height = st.height := by
  unfold MVM.executeCall
  by_cases hc : strStartsWith contract "mvm1contract" = true
  · rw [if_pos hc]
    have hp := call_frame now st "" contract method args 0
    set p := MVM.call now st "" contract method args 0 with hpd
    clear_value p
    obtain ⟨r, s'⟩ := p
    cases r with
    | error e => exact hp
    | ok result =>
      dsimp only []
      by_cases hs : result.success = true
      · rw [if_pos hs]; exact hp
      · rw [if_neg hs]; exact hp
  · rw [if_neg hc]
    repeat' split
    all_goals exact ⟨rfl, rfl, rfl⟩

theorem moshVarFold_frame (addr : String) (vars : List VarDef) :
    ∀ (s : State),
    ((vars.foldl (fun s v => s.setMoshVar addr v.name (v.default.getD v.varType.zeroValue)) s).nonces = s.nonces ∧
     (vars.foldl (fun s v => s.setMoshVar addr v.name (v.default.getD v.varType.zeroValue)) s).blocks = s.blocks ∧
     (vars.foldl (fun s v => s.setMoshVar addr v.name (v.default.getD v.varType.zeroValue)) s).height = s.height) := by
  induction vars with
  | nil => intro s; exact ⟨rfl, rfl, rfl⟩
  | cons v rest ih => intro s; exact ih _

theorem deploy_frame (addrHex : String) (createdAt : Int) (st : State)
    (creator name : String) (token : Option String) (vars : List VarDef)
    (mappings : List MappingDef) (functions : List FnDef) :
    (MVM.deploy addrHex createdAt st creator name token vars mappings functions).2.nonces = st.nonces ∧
    (MVM.deploy addrHex createdAt st creator name token vars mappings functions).2.blocks = st.blocks ∧
    (MVM.deploy addrHex createdAt st creator name token vars mappings functions).2.height = st.height := by
  unfold MVM.deploy MVM.deployCommit
  repeat' split
  all_goals first
  | exact ⟨rfl, rfl, rfl⟩
  | exact moshVarFold_frame _ _ _

theorem transferMvm20_ok_frame {st st2 : State} {c f t : String} {amount : Nat}
    (h : transferMvm20 st c f t amount = .ok st2) :
    st2.nonces = st.nonces ∧ st2.blocks = st.blocks ∧ st2.height = st.height := by
  unfold transferMvm20 at h
  by_cases hb : st.tokenBalances c f < amount
  · rw [if_pos hb] at h; cases h
  · rw [if_neg hb] at h
    cases h
    exact ⟨rfl, rfl, rfl⟩

theorem executeCall_frame' (now : Nat) (st1 : State) (c m : String) (a : List String)
    {r : Except String (Option JVal)} {st2 : State}
    (heq : MVM.executeCall now st1 c m a = (r, st2)) :
    st2.nonces = st1.nonces ∧ st2.blocks = st1.blocks ∧ st2.height = st1.height := by
  have hp := executeCall_frame now st1 c m a
  rw [heq] at hp
  exact hp

theorem call_frame' (now : Nat) (st1 : State) (caller addr fn : String)
    (args : List String) (amt : Nat) {r : Except String CallResult} {st2 : State}
    (heq : MVM.call now st1 caller addr fn args amt = (r, st2)) :
    st2.nonces = st1.nonces ∧ st2.blocks = st1.blocks ∧ st2.height = st1.height := by
  have hp := call_frame now st1 caller addr fn args amt
  rw [heq] at hp
  exact hp

theorem deploy_frame' (addrHex : String) (createdAt : Int) (st1 : State)
    (creator name : String) (token : Option String) (vars : List VarDef)
    (mappings : List MappingDef) (functions : List FnDef)
    {r : Except String String} {st2 : State}
    (heq : MVM.deploy addrHex createdAt st1 creator name token vars mappings functions = (r, st2)) :
    st2.nonces = st1.nonces ∧ st2.blocks = st1.blocks ∧ st2.height = st1.height := by
  have hp := deploy_frame addrHex createdAt st1 creator name token vars mappings functions
  rw [heq] at hp
  exact hp

set_option maxHeartbeats 2000000 in
/-- Per-transaction effect on the nonce table: a transaction that executes
without error and whose data matches its kind bumps exactly its sender's
nonce cell (as a `u64`); every other outcome leaves the table unchanged.
The executed transaction keeps its sender, kind, status and data fields,
and the block store and height are never touched. -/
theorem executeTransaction_effects (env : Env) (st : State) (tx : Tx) :
    ((executeTransaction env st tx).1.nonces =
      (if (executeTransaction env st tx).2.2 = none ∧ effectiveData tx = true
       then upd st.nonces tx.fromAddr (wrap64 (st.nonces tx.fromAddr + 1))
       else st.nonces)) ∧
    (executeTransaction env st tx).2.1.fromAddr = tx.fromAddr ∧
    (executeTransaction env st tx).2.1.status = tx.status ∧
    (executeTransaction env st tx).2.1.txType = tx.txType ∧
    (executeTransaction env st tx).2.1.data = tx.data ∧
    (executeTransaction env st tx).1.blocks = st.blocks ∧
    (executeTransaction env st tx).1.height = st.height := by
  unfold executeTransaction
  dsimp only []
  cases htt : tx.txType
  case Transfer =>
    split
    · refine ⟨?_, rfl, rfl, rfl, rfl, rfl, rfl⟩
      rw [if_neg (by simp)] <;> try rfl
    · split
      · refine ⟨?_, rfl, rfl, rfl, rfl, rfl, rfl⟩
        rw [if_neg (by simp)] <;> try rfl
      · split
        · refine ⟨?_, rfl, rfl, rfl, rfl, rfl, rfl⟩
          rw [if_neg (by simp)] <;> try rfl
        · cases hto : tx.toAddr with
          | none =>
            refine ⟨?_, rfl, rfl, rfl, rfl, rfl, rfl⟩
            rw [if_neg (by simp)] <;> try rfl
          | some toA =>
            dsimp only []
            split
            · refine ⟨?_, rfl, rfl, rfl, rfl, rfl, rfl⟩
              rw [if_neg (by simp)] <;> try rfl
            · refine ⟨?_, rfl, rfl, rfl, rfl, rfl, rfl⟩
              rw [if_pos ⟨rfl, by simp [effectiveData, htt]⟩]
              rfl
  case Deploy =>
    split
    · refine ⟨?_, rfl, rfl, rfl, rfl, rfl, rfl⟩
      rw [if_neg (by simp)] <;> try rfl
    · split
      · refine ⟨?_, rfl, rfl, rfl, rfl, rfl, rfl⟩
        rw [if_neg (by simp)] <;> try rfl
      · split
        · refine ⟨?_, rfl, rfl, rfl, rfl, rfl, rfl⟩
          rw [if_neg (by simp)] <;> try rfl
        · refine ⟨?_, rfl, rfl, rfl, rfl, rfl, rfl⟩
          rw [if_pos ⟨rfl, by simp [effectiveData, htt]⟩]
          rfl
  case Call =>
    split
    · refine ⟨?_, rfl, rfl, rfl, rfl, rfl, rfl⟩
      rw [if_neg (by simp)] <;> try rfl
    · split
      · refine ⟨?_, rfl, rfl, rfl, rfl, rfl, rfl⟩
        rw [if_neg (by simp)] <;> try rfl
      · split
        · refine ⟨?_, rfl, rfl, rfl, rfl, rfl, rfl⟩
          rw [if_neg (by simp)] <;> try rfl
        · cases hd : tx.data with
          | none =>
            refine ⟨?_, rfl, rfl, rfl, rfl, rfl, rfl⟩
            rw [if_neg (by simp [effectiveData, htt, hd])] <;> try rfl
          | some d =>
            cases d
            case Call c m a =>
              dsimp only []
              split
              next e st2 heq =>
                obtain ⟨hn, hb, hh⟩ := executeCall_frame' _ _ _ _ _ heq
                refine ⟨?_, rfl, rfl, rfl, rfl, hb, hh⟩
                rw [if_neg (by simp)] <;> try rfl
                exact hn
              next val st2 heq =>
                obtain ⟨hn, hb, hh⟩ := executeCall_frame' _ _ _ _ _ heq
                refine ⟨?_, rfl, rfl, rfl, rfl, hb, hh⟩
                rw [if_pos ⟨rfl, by simp [effectiveData, htt, hd]⟩]
                show upd st2.nonces tx.fromAddr (wrap64 (st2.nonces tx.fromAddr + 1)) = _
                rw [hn]
                rfl
            all_goals
              refine ⟨?_, rfl, rfl, rfl, rfl, rfl, rfl⟩
              rw [if_neg (by simp [effectiveData, htt, hd])] <;> try rfl
  case CreateToken =>
    split
    · refine ⟨?_, rfl, rfl, rfl, rfl, rfl, rfl⟩
      rw [if_neg (by simp)] <;> try rfl
    · split
      · refine ⟨?_, rfl, rfl, rfl, rfl, rfl, rfl⟩
        rw [if_neg (by simp)] <;> try rfl
      · split
        · refine ⟨?_, rfl, rfl, rfl, rfl, rfl, rfl⟩
          rw [if_neg (by simp)] <;> try rfl
        · cases hd : tx.data with
          | none =>
            refine ⟨?_, rfl, rfl, rfl, rfl, rfl, rfl⟩
            rw [if_neg (by simp [effectiveData, htt, hd])] <;> try rfl
          | some d =>
            cases d
            case CreateToken nm sym sup =>
              dsimp only []
              refine ⟨?_, rfl, rfl, rfl, rfl, rfl, rfl⟩
              rw [if_pos ⟨rfl, by simp [effectiveData, htt, hd]⟩]
              rfl
            all_goals
              refine ⟨?_, rfl, rfl, rfl, rfl, rfl, rfl⟩
              rw [if_neg (by simp [effectiveData, htt, hd])] <;> try rfl
  case TransferToken =>
    split
    · refine ⟨?_, rfl, rfl, rfl, rfl, rfl, rfl⟩
      rw [if_neg (by simp)] <;> try rfl
    · split
      · refine ⟨?_, rfl, rfl, rfl, rfl, rfl, rfl⟩
        rw [if_neg (by simp)] <;> try rfl
      · split
        · refine ⟨?_, rfl, rfl, rfl, rfl, rfl, rfl⟩
          rw [if_neg (by simp)] <;> try rfl
        · cases hd : tx.data with
          | none =>
            refine ⟨?_, rfl, rfl, rfl, rfl, rfl, rfl⟩
            rw [if_neg (by simp [effectiveData, htt, hd])] <;> try rfl
          | some d =>
            cases d
            case TransferToken c toA amt =>
              dsimp only []
              split
              · refine ⟨?_, rfl, rfl, rfl, rfl, rfl, rfl⟩
                rw [if_neg (by simp)] <;> try rfl
              · split
                · refine ⟨?_, rfl, rfl, rfl, rfl, rfl, rfl⟩
                  rw [if_neg (by simp)] <;> try rfl
                · split
                  · refine ⟨?_, rfl, rfl, rfl, rfl, rfl, rfl⟩
                    rw [if_neg (by simp)] <;> try rfl
                  · split
                    next e heq =>
                      refine ⟨?_, rfl, rfl, rfl, rfl, rfl, rfl⟩
                      rw [if_neg (by simp)] <;> try rfl
                    next st2 heq =>
                      obtain ⟨hn, hb, hh⟩ := transferMvm20_ok_frame heq
                      refine ⟨?_, rfl, rfl, rfl, rfl, hb, hh⟩
                      rw [if_pos ⟨rfl, by simp [effectiveData, htt, hd]⟩]
                      show upd st2.nonces tx.fromAddr (wrap64 (st2.nonces tx.fromAddr + 1)) = _
                      rw [hn]
                      rfl
            all_goals
              refine ⟨?_, rfl, rfl, rfl, rfl, rfl, rfl⟩
              rw [if_neg (by simp [effectiveData, htt, hd])] <;> try rfl
  case DeployContract =>
    split
    · refine ⟨?_, rfl, rfl, rfl, rfl, rfl, rfl⟩
      rw [if_neg (by simp)] <;> try rfl
    · split
      · refine ⟨?_, rfl, rfl, rfl, rfl, rfl, rfl⟩
        rw [if_neg (by simp)] <;> try rfl
      · split
        · refine ⟨?_, rfl, rfl, rfl, rfl, rfl, rfl⟩
          rw [if_neg (by simp)] <;> try rfl
        · cases hd : tx.data with
          | none =>
            refine ⟨?_, rfl, rfl, rfl, rfl, rfl, rfl⟩
            rw [if_neg (by simp [effectiveData, htt, hd])] <;> try rfl
          | some d =>
            cases d
            case DeployContract nm tok vs mps fns =>
              dsimp only []
              split
              next e st2 heq =>
                obtain ⟨hn, hb, hh⟩ := deploy_frame' _ _ _ _ _ _ _ _ _ heq
                refine ⟨?_, rfl, rfl, rfl, rfl, hb, hh⟩
                rw [if_neg (by simp)] <;> try rfl
                exact hn
              next addr st2 heq =>
                obtain ⟨hn, hb, hh⟩ := deploy_frame' _ _ _ _ _ _ _ _ _ heq
                refine ⟨?_, rfl, rfl, rfl, rfl, hb, hh⟩
                rw [if_pos ⟨rfl, by simp [effectiveData, htt, hd]⟩]
                show upd st2.nonces tx.fromAddr (wrap64 (st2.nonces tx.fromAddr + 1)) = _
                rw [hn]
                rfl
            all_goals
              refine ⟨?_, rfl, rfl, rfl, rfl, rfl, rfl⟩
              rw [if_neg (by simp [effectiveData, htt, hd])] <;> try rfl
  case CallContract =>
    split
    · refine ⟨?_, rfl, rfl, rfl, rfl, rfl, rfl⟩
      rw [if_neg (by simp)] <;> try rfl
    · split
      · refine ⟨?_, rfl, rfl, rfl, rfl, rfl, rfl⟩
        rw [if_neg (by simp)] <;> try rfl
      · split
        · refine ⟨?_, rfl, rfl, rfl, rfl, rfl, rfl⟩
          rw [if_neg (by simp)] <;> try rfl
        · cases hd : tx.data with
          | none =>
            refine ⟨?_, rfl, rfl, rfl, rfl, rfl, rfl⟩
            rw [if_neg (by simp [effectiveData, htt, hd])] <;> try rfl
          | some d =>
            cases d
            case CallContract c m a amt =>
              dsimp only []
              split
              next e st2 heq =>
                obtain ⟨hn, hb, hh⟩ := call_frame' _ _ _ _ _ _ _ heq
                refine ⟨?_, rfl, rfl, rfl, rfl, hb, hh⟩
                rw [if_neg (by simp)] <;> try rfl
                exact hn
              next result st2 heq =>
                obtain ⟨hn, hb, hh⟩ := call_frame' _ _ _ _ _ _ _ heq
                split
                · refine ⟨?_, rfl, rfl, rfl, rfl, hb, hh⟩
                  rw [if_neg (by simp)] <;> try rfl
                  exact hn
                · refine ⟨?_, rfl, rfl, rfl, rfl, hb, hh⟩
                  rw [if_pos ⟨rfl, by simp [effectiveData, htt, hd]⟩]
                  show upd st2.nonces tx.fromAddr (wrap64 (st2.nonces tx.fromAddr + 1)) = _
                  rw [hn]
                  rfl
            all_goals
              refine ⟨?_, rfl, rfl, rfl, rfl, rfl, rfl⟩
              rw [if_neg (by simp [effectiveData, htt, hd])] <;> try rfl

theorem effectiveData_congr {t1 t2 : Tx} (h1 : t1.txType = t2.txType)
    (h2 : t1.data = t2.data) : effectiveData t1 = effectiveData t2 := by
  unfold effectiveData
  rw [h1, h2]

/-- Executing a drained batch adds to each address's nonce exactly the
number of its Success transactions with kind-matching data (mod 2^64), and
the block store and height are untouched by transaction execution. -/
theorem execList_effects (env : Env) : ∀ (txs : List Tx) (st : State) (a : String),
    st.nonces a < 2 ^ 64 →
    ((execList env st txs).1.nonces a =
      (st.nonces a + successCountFor a (execList env st txs).2) % 2 ^ 64) ∧
    (execList env st txs).1.blocks = st.blocks ∧
    (execList env st txs).1.height = st.height := by
  intro txs
  induction txs with
  | nil =>
    intro st a h
    refine ⟨?_, rfl, rfl⟩
    simp only [execList, successCountFor, List.filter_nil, List.length_nil]
    omega
  | cons tx rest ih =>
    intro st a h
    obtain ⟨e1, e2, e3, e4, e5, e6, e7⟩ := executeTransaction_effects env st tx
    simp only [execList]
    cases herr : (executeTransaction env st tx).2.2 with
    | none =>
      rw [herr] at e1
      dsimp only []
      have heffD : effectiveData { (executeTransaction env st tx).2.1 with status := TxStatus.Success }
          = effectiveData tx :=
        effectiveData_congr e4 e5
      by_cases heff : effectiveData tx = true
      · rw [if_pos ⟨rfl, heff⟩] at e1
        by_cases hfa : tx.fromAddr = a
        · have hn1 : (executeTransaction env st tx).1.nonces a = (st.nonces a + 1) % 2 ^ 64 := by
            rw [e1]
            unfold upd wrap64
            rw [if_pos hfa.symm, hfa]
          have hlt : (executeTransaction env st tx).1.nonces a < 2 ^ 64 := by
            rw [hn1]
            exact Nat.mod_lt _ (by norm_num)
          obtain ⟨i1, i2, i3⟩ := ih (executeTransaction env st tx).1 a hlt
          refine ⟨?_, i2.trans e6, i3.trans e7⟩
          rw [i1, hn1]
          have hcnt : successCountFor a
              ({ (executeTransaction env st tx).2.1 with status := TxStatus.Success }
                :: (execList env (executeTransaction env st tx).1 rest).2)
              = successCountFor a (execList env (executeTransaction env st tx).1 rest).2 + 1 := by
            simp only [successCountFor, List.filter_cons]
            rw [if_pos (by rw [heffD, heff]; simp [e2, hfa])]
            rfl
          rw [hcnt]
          omega
        · have hn0 : (executeTransaction env st tx).1.nonces a = st.nonces a := by
            rw [e1]
            unfold upd
            rw [if_neg (fun hh => hfa hh.symm)]
          obtain ⟨i1, i2, i3⟩ := ih (executeTransaction env st tx).1 a (by rw [hn0]; exact h)
          refine ⟨?_, i2.trans e6, i3.trans e7⟩
          rw [i1, hn0]
          have hcnt : successCountFor a
              ({ (executeTransaction env st tx).2.1 with status := TxStatus.Success }
                :: (execList env (executeTransaction env st tx).1 rest).2)
              = successCountFor a (execList env (executeTransaction env st tx).1 rest).2 := by
            simp only [successCountFor, List.filter_cons]
            rw [if_neg (by simp [e2, hfa])]
          rw [hcnt]
      · rw [if_neg (fun hc => heff hc.2)] at e1
        have heff' : effectiveData tx = false := by
          cases hx : effectiveData tx
          · rfl
          · exact absurd hx heff
        obtain ⟨i1, i2, i3⟩ := ih (executeTransaction env st tx).1 a (by rw [e1]; exact h)
        refine ⟨?_, i2.trans e6, i3.trans e7⟩
        rw [i1, e1]
        have hcnt : successCountFor a
            ({ (executeTransaction env st tx).2.1 with status := TxStatus.Success }
              :: (execList env (executeTransaction env st tx).1 rest).2)
            = successCountFor a (execList env (executeTransaction env st tx).1 rest).2 := by
          simp only [successCountFor, List.filter_cons]
          rw [if_neg (by rw [heffD, heff']; simp)]
        rw [hcnt]
    | some err =>
      rw [herr] at e1
      rw [if_neg (by simp)] at e1
      dsimp only []
      obtain ⟨i1, i2, i3⟩ := ih (executeTransaction env st tx).1 a (by rw [e1]; exact h)
      refine ⟨?_, i2.trans e6, i3.trans e7⟩
      rw [i1, e1]
      have hcnt : successCountFor a
          ({ (executeTransaction env st tx).2.1 with
              status := TxStatus.Failed, error := some err.toMessage }
            :: (execList env (executeTransaction env st tx).1 rest).2)
          = successCountFor a (execList env (executeTransaction env st tx).1 rest).2 := by
        simp only [successCountFor, List.filter_cons]
        rw [if_neg (by simp)]
      rw [hcnt]

theorem chainSuccessCount_extend (st st2 : State) (b : Block) (a : String)
    (hh : st2.height = st.height + 1)
    (hb : st2.blocks = fun h => if h = st.height + 1 then some b else st.blocks h) :
    chainSuccessCount st2 a = chainSuccessCount st a + successCountFor a b.transactions := by
  unfold chainSuccessCount
  rw [hh, hb]
  rw [List.range_succ, List.map_append, List.sum_append]
  congr 1
  · apply congrArg List.sum
    apply List.map_congr_left
    intro h hmem
    have hlt : h < st.height + 1 := List.mem_range.mp hmem
    dsimp only []
    rw [if_neg (by omega)]
  · simp

theorem produceBlock_state (env : Env) (cfg : Config) (st : State) (txs : List Tx) :
    (produceBlock env cfg st txs).1.nonces = (execList env st txs).1.nonces ∧
    (produceBlock env cfg st txs).1.height = st.height + 1 ∧
    (produceBlock env cfg st txs).2.transactions = (execList env st txs).2 ∧
    (produceBlock env cfg st txs).1.blocks
      = fun h => if h = st.height + 1 then some (produceBlock env cfg st txs).2
                 else (execList env st txs).1.blocks h := by
  unfold produceBlock
  dsimp only []
  refine ⟨(saveBlock_frame _ _).1, rfl, rfl, ?_⟩
  exact (saveBlock_frame _ _).2.2.2.2

theorem produceBlock_inv (env : Env) (cfg : Config) (st : State) (txs : List Tx)
    (hInv : ∀ x, st.nonces x = chainSuccessCount st x % 2 ^ 64) (a : String) :
    (produceBlock env cfg st txs).1.nonces a
      = chainSuccessCount (produceBlock env cfg st txs).1 a % 2 ^ 64 := by
  have hlt : st.nonces a < 2 ^ 64 := by
    rw [hInv a]
    exact Nat.mod_lt _ (by norm_num)
  obtain ⟨hx1, hx2, hx3⟩ := execList_effects env txs st a hlt
  obtain ⟨p1, p2, p3, p4⟩ := produceBlock_state env cfg st txs
  rw [hx2] at p4
  have hcnt := chainSuccessCount_extend st (produceBlock env cfg st txs).1
    (produceBlock env cfg st txs).2 a p2 p4
  rw [p1, hx1, hInv a, hcnt, p3]
  omega

theorem genesisInit_inv (env : Env) (cfg : Config) (a : String) :
    (genesisInit env cfg).nonces a = chainSuccessCount (genesisInit env cfg) a % 2 ^ 64 := by
  have hn : (genesisInit env cfg).nonces = State.init.nonces := by
    unfold genesisInit
    dsimp only []
    exact (saveBlock_frame _ _).1
  have hb : (genesisInit env cfg).blocks
      = fun h =>
        if h = (Block.genesis env.hashB env.nowTs env.masterAddr (wrap64 (cfg.masterBalance * 100000000))).height
        then some (Block.genesis env.hashB env.nowTs env.masterAddr (wrap64 (cfg.masterBalance * 100000000)))
        else State.init.blocks h := by
    unfold genesisInit
    dsimp only []
    exact (saveBlock_frame _ _).2.2.2.2
  have hh : (genesisInit env cfg).height = 0 := rfl
  unfold chainSuccessCount
  rw [hn, hb, hh]
  simp [successCountFor, Block.genesis, State.init, List.range_succ]

theorem runChain_inv (cfg : Config) : ∀ (steps : List (Env × List Tx)) (st : State),
    (∀ x, st.nonces x = chainSuccessCount st x % 2 ^ 64) →
    ∀ a, (runChain cfg st steps).nonces a = chainSuccessCount (runChain cfg st steps) a % 2 ^ 64 := by
  intro steps
  induction steps with
  | nil => intro st h a; exact h a
  | cons s rest ih =>
    intro st h a
    exact ih (produceBlock s.1 cfg st s.2).1 (produceBlock_inv s.1 cfg st s.2 h) a

/-- C1: After any chain run from genesis, the stored nonce of every address
`a` equals — reduced mod 2^64 — the number of transactions across all
persisted blocks (heights 0 .. current) whose status is `Success`, whose
sender is `a`, and whose `data` payload matches the transaction's kind.
The kind-match qualifier corrects the spec's unqualified count: a `Success`
transaction of a data-carrying kind whose `data` is missing or of the
wrong variant executes as a silent no-op and does not increment the nonce
(see `success_without_effect_keeps_nonce`). -/
theorem nonce_equals_effective_success_count (env0 : Env) (cfg : Config)
    (steps : List (Env × List Tx)) (a : String) :
    (runChain cfg (genesisInit env0 cfg) steps).nonces a =
      chainSuccessCount (runChain cfg (genesisInit env0 cfg) steps) a % 2 ^ 64 :=
  runChain_inv cfg steps (genesisInit env0 cfg) (genesisInit_inv env0 cfg) a
